import Mathlib

/-!
# cmt: commit-message generator

A shallow embedding of the Go program `dakoctba/cmt`.  Go strings are Lean
strings (sequences of Unicode code points), Go `error` values are their
message text, a Go `(string, error)` result is a pair whose second component is
`none` for the nil error, and everything the program does to the outside world
(looking up a binary, running a subprocess, starting the spinner, printing) is
recorded in order as a list of `Event`s.  The outside world itself (what the
subprocesses answer, what the file system holds) is a parameter.
-/

namespace Cmt

/-! ## The Go library functions the program calls -/

/-- Expansion of a format string by `fmt.Sprintf` over text operands: the verbs
`%s` and `%v` print the next operand as it is, `%%` prints a percent sign and
every other character is copied.  A verb with no operand left prints Go's
`%!s(MISSING)` marker.  Every call in the program has as many operands as
verbs. -/
def sprintfAux : List Char → List String → List Char
  | [], _ => []
  | '%' :: 's' :: rest, [] => "%!s(MISSING)".data ++ sprintfAux rest []
  | '%' :: 'v' :: rest, [] => "%!v(MISSING)".data ++ sprintfAux rest []
  | '%' :: 's' :: rest, a :: as => a.data ++ sprintfAux rest as
  | '%' :: 'v' :: rest, a :: as => a.data ++ sprintfAux rest as
  | '%' :: '%' :: rest, as => '%' :: sprintfAux rest as
  | c :: rest, as => c :: sprintfAux rest as

/-- Go `fmt.Sprintf(format, args...)` for text operands. -/
def Sprintf (format : String) (args : List String) : String :=
  String.mk (sprintfAux format.data args)

/-- Go `unicode.IsSpace`: the Latin-1 spaces `\t \n \v \f \r`, space, U+0085 and
U+00A0, and above Latin-1 the code points with the Unicode property
White_Space. -/
def isSpace (c : Char) : Bool :=
  let n := c.toNat
  (9 ≤ n && n ≤ 13) || n == 32 || n == 0x85 || n == 0xA0 || n == 0x1680 ||
  (0x2000 ≤ n && n ≤ 0x200A) || n == 0x2028 || n == 0x2029 || n == 0x202F ||
  n == 0x205F || n == 0x3000

/-- Go `strings.TrimLeftFunc(s, unicode.IsSpace)` on the code points. -/
def trimLeft (s : List Char) : List Char :=
  s.dropWhile isSpace

/-- Go `strings.TrimRightFunc(s, unicode.IsSpace)` on the code points. -/
def trimRight (s : List Char) : List Char :=
  (s.reverse.dropWhile isSpace).reverse

/-- Go `strings.TrimSpace`: the slice of `s` left after removing the leading
and then the trailing white space. -/
def TrimSpace (s : String) : String :=
  String.mk (trimRight (trimLeft s.data))

/-! ## The outside world and the record of what the program does to it -/

/-- The answers of the outside world to the program's calls.  A subprocess
whose output is captured (`exec.Cmd.Output`) answers with its standard output
when it exits zero and with the error of `Output` otherwise (the binary could
not be launched, or it exited non-zero). -/
structure Env where
  /-- Error of `exec.LookPath("ollama")`, `none` when the binary is found. -/
  lookPathOllama : Option String
  /-- Error of running `git rev-parse --is-inside-work-tree`, `none` on exit zero. -/
  gitRevParse : Option String
  /-- Answer of `git diff --cached`. -/
  gitDiffCached : Except String String
  /-- Answer of `ollama run <model> <prompt>`. -/
  ollamaRun : String → String → Except String String

/-- One interaction of the program with the outside world. -/
inductive Event where
  /-- Call `exec.LookPath(file)`. -/
  | lookPath (file : String)
  /-- Subprocess `name args...` run to completion (`Run` or `Output`). -/
  | exec (name : String) (args : List String)
  /-- Call `Spinner.Start(label)`: the spinner loop is launched. -/
  | spinnerStart (label : String)
  /-- Call `Spinner.Stop()`: the stop signal is sent to the loop. -/
  | spinnerStop
  /-- Text written to standard output by the main flow. -/
  | stdout (text : String)
  /-- Text written to the error stream by the main flow. -/
  | stderr (text : String)
  /-- Attempt to create or truncate the file at `path` and write to it. -/
  | writeFile (path : String)
  /-- Call of the function `fn` of the program with the text arguments `args`
  (recorded by the caller, for the functions whose calls matter below). -/
  | call (fn : String) (args : List String)
  /-- The cobra library prints the help text of the command. -/
  | help
  /-- The cobra library runs its hidden completion command on `args` and prints
  the completions. -/
  | complete (args : List String)
  deriving DecidableEq, Repr

/-- Go `fmt.Println(s)`: the text and a newline on standard output. -/
def Println (s : String) : Event :=
  Event.stdout (s ++ "\n")

/-- The text a run wrote to standard output from the main flow, in order. -/
def stdoutOf : List Event → String
  | [] => ""
  | Event.stdout t :: es => t ++ stdoutOf es
  | _ :: es => stdoutOf es

/-- Whether the event is an invocation of the model runner. -/
def Event.isOllamaRun : Event → Bool
  | Event.exec name _ => name == "ollama"
  | _ => false

/-- Whether the event is a call of the function `fn`. -/
def Event.isCall (fn : String) : Event → Bool
  | Event.call g _ => g == fn
  | _ => false

/-- Whether the event is an attempt to write a file. -/
def Event.isWrite : Event → Bool
  | Event.writeFile _ => true
  | _ => false

/-- Whether the event starts the spinner. -/
def Event.isSpinnerStart : Event → Bool
  | Event.spinnerStart _ => true
  | _ => false

/-! ## internal/ollama -/

/-- `ollama.CheckInstallation`: is the model runner on the search path. -/
def CheckInstallation (env : Env) : Option String × List Event :=
  match env.lookPathOllama with
  | some _ => (some (Sprintf "ollama is not installed. Please install Ollama" []),
               [Event.lookPath "ollama"])
  | none => (none, [Event.lookPath "ollama"])

/-- The instructions that open the prompt: the format string of
`GenerateCommitMessage` up to its one verb. -/
def promptText : String :=
  "You are given a Git diff. Your task is to generate a clear and concise commit message that follows the Conventional Commits specification.\n" ++
  "\n" ++
  "Conventional Commits summary:\n" ++
  "\n" ++
  "A Conventional Commit consists of a structured message with a type, an optional scope, and a short description. The format is:\n" ++
  "\n" ++
  "<type>(<optional scope>): <short description>\n" ++
  "\n" ++
  "Common types:\n" ++
  "\t•\tfeat: A new feature\n" ++
  "\t•\tfix: A bug fix\n" ++
  "\t•\tdocs: Documentation-only changes\n" ++
  "\t•\tstyle: Code style changes (formatting, missing semicolons, etc.)\n" ++
  "\t•\trefactor: Code change that neither fixes a bug nor adds a feature\n" ++
  "\t•\tperf: Performance improvements\n" ++
  "\t•\ttest: Adding or updating tests\n" ++
  "\t•\tchore: Routine tasks (build process, dependencies, etc.)\n" ++
  "\n" ++
  "⸻\n" ++
  "\n" ++
  "Your task:\n" ++
  "\t1.\tAnalyze the diff.\n" ++
  "\t2.\tCreate a short, meaningful commit title that clearly summarizes the change using the Conventional Commits format.\n" ++
  "\t3.\tOptionally, write a description explaining what was changed and why.\n" ++
  "\n" ++
  "Return the result as a Git commit command in the following format:\n" ++
  "\n" ++
  "git commit -m \"<title>\" -m \"<description>\"\n" ++
  "\n" ++
  "❗ Do not include any additional text or explanations in your response. Only return the git commit instruction.\n"

/-- The format string of the prompt in `GenerateCommitMessage`: the instructions
followed by the verb `%s` for the diff. -/
def promptFormat : String :=
  promptText ++ "%s"

/-- The prompt `GenerateCommitMessage` builds from the diff. -/
def buildPrompt (diff : String) : String :=
  Sprintf promptFormat [diff]

/-- `ollama.GenerateCommitMessage(diff, model)`: the returned text, the returned
error and the subprocess invocations made. -/
def GenerateCommitMessage (env : Env) (diff model : String) :
    (String × Option String) × List Event :=
  let prompt := buildPrompt diff
  let cmd := Event.exec "ollama" ["run", model, prompt]
  match env.ollamaRun model prompt with
  | Except.error err =>
      (("", some (Sprintf "failed to generate commit message: %v" [err])), [cmd])
  | Except.ok output => ((TrimSpace output, none), [cmd])

/-! ## internal/git -/

/-- `git.CheckRepo`: is the working directory inside a repository. -/
def CheckRepo (env : Env) : Option String × List Event :=
  let cmd := Event.exec "git" ["rev-parse", "--is-inside-work-tree"]
  match env.gitRevParse with
  | some _ =>
      (some (Sprintf
        "this is not a Git repository. Please run this command inside a Git repository" []),
       [cmd])
  | none => (none, [cmd])

/-- `git.GetStagedDiff`: the staged changes as text. -/
def GetStagedDiff (env : Env) : (String × Option String) × List Event :=
  let cmd := Event.exec "git" ["diff", "--cached"]
  match env.gitDiffCached with
  | Except.error err => (("", some (Sprintf "failed to get staged diff: %v" [err])), [cmd])
  | Except.ok output => ((output, none), [cmd])

/-! ## internal/commit -/

/-- `commit.RunCommit`: the returned error (`none` for nil) and the events of
the run in order.  `getModel` is the value `config.GetModel()` returns. -/
def RunCommit (env : Env) (getModel : String) : Option String × List Event :=
  match CheckInstallation env with
  | (some err, t1) => (some err, t1)
  | (none, t1) =>
    match CheckRepo env with
    | (some err, t2) => (some err, t1 ++ t2)
    | (none, t2) =>
      match GetStagedDiff env with
      | ((_, some err), t3) => (some err, t1 ++ t2 ++ t3)
      | ((diff, none), t3) =>
        if diff = "" then
          (some (Sprintf
            "no staged changes found. Please stage your changes using 'git add' first" []),
           t1 ++ t2 ++ t3)
        else
          let model := if getModel = "" then "llama3.1" else getModel
          let t4 := [Event.spinnerStart model,
            Event.call "ollama.GenerateCommitMessage" [diff, model]]
          match GenerateCommitMessage env diff model with
          | ((commitMessage, err), t5) =>
            let t6 := [Event.spinnerStop]
            match err with
            | some e => (some e, t1 ++ t2 ++ t3 ++ t4 ++ t5 ++ t6)
            | none =>
              (none, t1 ++ t2 ++ t3 ++ t4 ++ t5 ++ t6 ++
                [Println "\nGenerated commit message:", Println commitMessage])

/-- Whether the event stops the spinner. -/
def Event.isSpinnerStop : Event → Bool
  | Event.spinnerStop => true
  | _ => false

/-- The events of the three gates of `RunCommit` that call out: the look-up of
the model runner, the repository probe and the diff extraction. -/
def gateEvents : List Event :=
  [Event.lookPath "ollama", Event.exec "git" ["rev-parse", "--is-inside-work-tree"],
   Event.exec "git" ["diff", "--cached"]]

/-- The events of the completion step of `RunCommit` for the staged diff `d`:
start the spinner, call `GenerateCommitMessage`, which invokes the runner, stop
the spinner. -/
def completionEvents (model d : String) : List Event :=
  [Event.spinnerStart model, Event.call "ollama.GenerateCommitMessage" [d, model],
   Event.exec "ollama" ["run", model, buildPrompt d], Event.spinnerStop]

/-- The model identifier `RunCommit` uses when `config.GetModel()` returns
`getModel`. -/
def usedModel (getModel : String) : String :=
  if getModel = "" then "llama3.1" else getModel

/-! ## Settings: the file system, the viper store and config.go -/

/-- A settings file as the viper library decodes it. -/
inductive FileData where
  /-- The file exists, but reading or decoding it fails with this error. -/
  | unreadable (err : String)
  /-- The file decodes; `model` is the value of its key `model`, if it has one. -/
  | settings (model : Option String)
  deriving DecidableEq, Repr

/-- The part of the outside world settings resolution works on. -/
structure World where
  /-- Value of the environment variable `HOME`, empty when it is not set. -/
  home : String
  /-- The working directory, as a path from the root without the leading
  separator. -/
  cwd : String
  /-- What the environment makes of a path that holds a `$`: the path after
  viper has replaced a leading `$HOME` by the home directory and `os.ExpandEnv`
  has replaced the variable references. -/
  expandEnv : String → String
  /-- The settings files present, by path. -/
  files : String → Option FileData
  /-- The error with which creating or truncating the file at a path fails,
  `none` when the file can be written. -/
  writeError : String → Option String

/-- The process-wide store of the viper library, restricted to the key `model`.
The default value of the structure is the store after `viper.Reset()`. -/
structure Viper where
  /-- Explicit settings file (`SetConfigFile`), empty when none. -/
  configFile : String := ""
  /-- Directories searched for the settings file (`AddConfigPath`). -/
  configPaths : List String := []
  /-- Base name searched for (`SetConfigName`). -/
  configName : String := "config"
  /-- Format of the settings file (`SetConfigType`), empty when not set. -/
  configType : String := ""
  /-- Value of `model` registered by `SetDefault`. -/
  defaults : Option String := none
  /-- Value of `model` read from the settings file. -/
  config : Option String := none
  /-- Value of `model` set by `Set`. -/
  override : Option String := none
  deriving DecidableEq, Repr

/-- The state of the running process during settings resolution. -/
structure State where
  world : World
  viper : Viper
  trace : List Event

/-- Record an event at the end of the trace. -/
def State.emit (s : State) (e : Event) : State :=
  { s with trace := s.trace ++ [e] }

/-- `strings.Split(path, "/")` on the characters of a path: the elements
between the separators, empty ones included. -/
def splitSlash : List Char → List (List Char)
  | [] => [[]]
  | c :: cs =>
    if c = '/' then [] :: splitSlash cs
    else
      match splitSlash cs with
      | [] => [[c]]
      | e :: es => (c :: e) :: es

/-- One element of the path in the loop of `filepath.Clean`; `stack` holds the
elements kept so far, the last one first.  An empty element and `.` are
dropped; `..` removes the last element kept when there is one that is not
itself `..`, is dropped at the root, and is kept otherwise. -/
def pushElem (rooted : Bool) (stack : List (List Char)) (e : List Char) : List (List Char) :=
  if e = [] ∨ e = ['.'] then stack
  else if e = ['.', '.'] then
    match stack with
    | [] => if rooted then [] else [e]
    | t :: rest => if t = ['.', '.'] then e :: stack else rest
  else e :: stack

/-- The elements joined by the separator. -/
def joinSlash : List (List Char) → List Char
  | [] => []
  | [e] => e
  | e :: es => e ++ '/' :: joinSlash es

/-- Whether the path starts with the separator. -/
def isRooted (p : List Char) : Bool :=
  p.head? = some '/'

/-- The elements `filepath.Clean` keeps of a path, the last one first. -/
def cleanStack (p : List Char) : List (List Char) :=
  (splitSlash p).foldl (pushElem (isRooted p)) []

/-- The path `filepath.Clean` returns for the elements kept: the root and the
elements, or `.` when the path is not rooted and nothing is kept. -/
def renderPath (rooted : Bool) (stack : List (List Char)) : List Char :=
  if rooted then '/' :: joinSlash stack.reverse
  else if stack = [] then ['.'] else joinSlash stack.reverse

/-- Go `filepath.Clean(path)` on Unix. -/
def Clean (path : String) : String :=
  ⟨renderPath (isRooted path.data) (cleanStack path.data)⟩

/-- Go `filepath.IsAbs(path)` on Unix. -/
def IsAbs (path : String) : Bool :=
  isRooted path.data

/-- Go `filepath.Join(dir, name)`: the elements that are not empty joined by the
separator, and the result cleaned. -/
def joinPath (dir name : String) : String :=
  if dir ≠ "" then Clean (dir ++ "/" ++ name)
  else if name ≠ "" then Clean name
  else ""

/-- An element `filepath.Clean` keeps: not empty, not `.`, without separator. -/
def Kept (e : List Char) : Prop :=
  e ≠ [] ∧ e ≠ ['.'] ∧ '/' ∉ e

/-- A file or directory name: an element kept that is not `..`. -/
def Plain (e : List Char) : Prop :=
  Kept e ∧ e ≠ ['.', '.']

/-- Go `os.UserHomeDir()` on Unix: the value of `HOME`, or an error when it is
empty. -/
def UserHomeDir (w : World) : Except String String :=
  if w.home ≠ "" then Except.ok w.home else Except.error "$HOME is not defined"

/-- Go `os.Getwd()`: the working directory as a rooted path. -/
def Getwd (w : World) : String :=
  "/" ++ w.cwd

/-- Go `filepath.Abs(path)`: a rooted path cleaned, any other joined to the
working directory. -/
def Abs (w : World) (path : String) : String :=
  if IsAbs path then Clean path else joinPath (Getwd w) path

/-- The function `absPathify` of viper, which `AddConfigPath` applies to a
directory: a leading `$HOME` is replaced and the variable references are
expanded, which leaves a path without `$` as it is, and the result is cleaned
when it is rooted and made absolute and cleaned when it is not. -/
def absPathify (w : World) (inPath : String) : String :=
  let p := if '$' ∈ inPath.data then w.expandEnv inPath else inPath
  if IsAbs p then Clean p else Clean (Abs w p)

/-- The rooted path under which the system finds the file a path names: a path
that is not rooted is taken from the working directory.  The file system is one
without symbolic links, where a path and its clean form name the same file. -/
def World.locate (w : World) (path : String) : String :=
  if IsAbs path then path else joinPath (Getwd w) path

/-- The file extensions viper tries when it searches a directory, in order. -/
def supportedExts : List String :=
  ["json", "toml", "yaml", "yml", "properties", "props", "prop", "hcl", "tfvars",
   "dotenv", "env", "ini"]

/-- The paths viper probes in the directory `dir`, in order: the base name with
each supported extension, then the bare base name when a format is set. -/
def candidates (configName configType dir : String) : List String :=
  supportedExts.map (fun ext => joinPath dir (configName ++ "." ++ ext)) ++
    (if configType = "" then [] else [joinPath dir configName])

/-- The first settings file viper finds in its search directories. -/
def findConfigFile (v : Viper) (w : World) : Option String :=
  v.configPaths.findSome? (fun dir =>
    (candidates v.configName v.configType dir).find? (fun f => (w.files f).isSome))

/-- The errors of `viper.ReadInConfig` the program tells apart. -/
inductive ReadError where
  /-- A `viper.ConfigFileNotFoundError`: the search found no settings file. -/
  | notFound
  /-- Any other error, with its text. -/
  | other (msg : String)
  deriving DecidableEq, Repr

/-- `viper.ReadInConfig()`: locate the settings file (the explicit one, or the
first one found by the search), read and decode it into the store. -/
def ReadInConfig (v : Viper) (w : World) : Viper × Option ReadError :=
  let located : Option String :=
    if v.configFile = "" then findConfigFile v w else some v.configFile
  match located with
  | none => (v, some ReadError.notFound)
  | some file =>
    let v1 := { v with configFile := file }
    match w.files file with
    | none => (v1, some (ReadError.other ("open " ++ file ++ ": no such file or directory")))
    | some (FileData.unreadable err) => (v1, some (ReadError.other err))
    | some (FileData.settings m) => ({ v1 with config := m }, none)

/-- The value of `model` in the store: a value set by `Set` wins over the
settings file, which wins over the registered default. -/
def Viper.get (v : Viper) : Option String :=
  (v.override.orElse (fun _ => v.config)).orElse (fun _ => v.defaults)

/-- `viper.GetString("model")`. -/
def Viper.GetString (v : Viper) : String :=
  v.get.getD ""

/-- `viper.WriteConfigAs(path)`: create or truncate the file and write the
settings of the store to it.  The file is then found under every path the
system resolves to the same rooted path. -/
def WriteConfigAs (path : String) (s : State) : State × Option String :=
  let s1 := s.emit (Event.writeFile path)
  match s.world.writeError path with
  | some err => (s1, some err)
  | none =>
    ({ s1 with world := { s1.world with
        files := fun f =>
          if s.world.locate f = s.world.locate path then some (FileData.settings s.viper.get)
          else s.world.files f } }, none)

/-- `createDefaultConfig()` of config.go: the state it leaves and the exit code
when it ends the process. -/
def createDefaultConfig (s : State) : State × Option Nat :=
  match UserHomeDir s.world with
  | Except.error err => (s.emit (Event.stderr (Sprintf "Error: %v\n" [err])), some 1)
  | Except.ok home =>
    let configPath := joinPath home ".cmt.yaml"
    let s1 := { s with viper := { s.viper with override := some "llama3.1" } }
    match WriteConfigAs configPath s1 with
    | (s2, some err) =>
        (s2.emit (Event.stderr (Sprintf "Error creating config file: %v\n" [err])), some 1)
    | (s2, none) =>
        (s2.emit (Event.stdout (Sprintf "Created default config file: %s\n" [configPath])), none)

/-- `initConfig()` of config.go, its package variable `cfgFile` made an
argument: the state it leaves and the exit code when it ends the process. -/
def initConfig (cfgFile : String) (s : State) : State × Option Nat :=
  let located : State × Option Nat :=
    if cfgFile ≠ "" then
      ({ s with viper := { s.viper with configFile := cfgFile } }, none)
    else
      match UserHomeDir s.world with
      | Except.error err => (s.emit (Event.stderr (Sprintf "Error: %v\n" [err])), some 1)
      | Except.ok home =>
        -- `AddConfigPath` skips an empty directory, stores the directory as
        -- `absPathify` returns it, and adds it once; `SetConfigName` clears the
        -- explicit file
        ({ s with viper := { s.viper with
            configPaths :=
              if home = "" ∨ absPathify s.world home ∈ s.viper.configPaths then
                s.viper.configPaths
              else s.viper.configPaths ++ [absPathify s.world home]
            configType := "yaml"
            configName := ".cmt"
            configFile := "" } }, none)
  match located with
  | (s1, some code) => (s1, some code)
  | (s1, none) =>
    let s2 := { s1 with viper := { s1.viper with defaults := some "llama3.1" } }
    match ReadInConfig s2.viper s2.world with
    | (v, none) => ({ s2 with viper := v }, none)
    | (v, some ReadError.notFound) =>
        createDefaultConfig (({ s2 with viper := v }).emit (Event.call "createDefaultConfig" []))
    | (v, some (ReadError.other err)) =>
        (({ s2 with viper := v }).emit
          (Event.stderr (Sprintf "Error reading config file: %v\n" [err])), some 1)

/-- The settings file `initConfig` reads in a fresh process: the explicit path
when one is given, else the first file the search of the home directory
finds. -/
def resolvedFile (cfgFile : String) (w : World) : Option String :=
  if cfgFile ≠ "" then some cfgFile
  else
    match UserHomeDir w with
    | Except.error _ => none
    | Except.ok home =>
      (candidates ".cmt" "yaml" (absPathify w home)).find? (fun f => (w.files f).isSome)

/-- The state of a process that starts in the world `w`. -/
def State.start (w : World) : State :=
  { world := w, viper := {}, trace := [] }

/-! ## cmd/cmt: the command line and `main`

The command line is read by the libraries main.go imports; the definitions
follow cobra 1.x and pflag 1.0.x. -/

/-- What the cobra library makes of the command-line arguments. -/
inductive Parsed where
  /-- The arguments parse; these are the values of the flag variables. -/
  | flags (cfgFile model : String) (help version : Bool)
  /-- Parsing fails with this error. -/
  | error (msg : String)
  /-- The first argument that is not a flag names the hidden completion command
  of cobra, which is run on the other arguments. -/
  | complete (args : List String)
  deriving DecidableEq, Repr

/-- The flags of the root command when cobra parses the arguments: the two
persistent flags of main.go, and `help` and `version`, which cobra adds with
the shorthands `h` and `v`. -/
inductive Flag where
  | config
  | model
  | help
  | version
  deriving DecidableEq, Repr

/-- The flag of a long name. -/
def lookupLong (name : String) : Option Flag :=
  if name = "config" then some Flag.config
  else if name = "model" then some Flag.model
  else if name = "help" then some Flag.help
  else if name = "version" then some Flag.version
  else none

/-- The flag of a shorthand letter. -/
def lookupShort (c : Char) : Option Flag :=
  if c = 'h' then some Flag.help
  else if c = 'v' then some Flag.version
  else none

/-- Go `strconv.ParseBool`. -/
def ParseBool (s : String) : Option Bool :=
  if s ∈ ["1", "t", "T", "TRUE", "true", "True"] then some true
  else if s ∈ ["0", "f", "F", "FALSE", "false", "False"] then some false
  else none

/-- A hexadecimal digit in lower case. -/
def hexDigit (n : Nat) : Char :=
  ("0123456789abcdef" : String).data.getD n '0'

/-- One character inside a Go quoted literal delimited by `quote`: the
delimiter and the backslash are escaped, a control character of ASCII is
written as its escape, any other character as it is. -/
def quoteChar (quote c : Char) : List Char :=
  if c = quote ∨ c = Char.ofNat 92 then [Char.ofNat 92, c]
  else if c = Char.ofNat 7 then [Char.ofNat 92, 'a']
  else if c = Char.ofNat 8 then [Char.ofNat 92, 'b']
  else if c = Char.ofNat 12 then [Char.ofNat 92, 'f']
  else if c = Char.ofNat 10 then [Char.ofNat 92, 'n']
  else if c = Char.ofNat 13 then [Char.ofNat 92, 'r']
  else if c = Char.ofNat 9 then [Char.ofNat 92, 't']
  else if c = Char.ofNat 11 then [Char.ofNat 92, 'v']
  else if c.toNat < 32 ∨ c.toNat = 127 then
    [Char.ofNat 92, 'x', hexDigit (c.toNat / 16), hexDigit (c.toNat % 16)]
  else [c]

/-- Go `strconv.Quote(s)`, the verb `%q` on a string, for a string whose
characters outside ASCII are printable. -/
def Quote (s : String) : String :=
  String.mk (Char.ofNat 34 :: (s.data.flatMap (quoteChar (Char.ofNat 34)) ++ [Char.ofNat 34]))

/-- The first byte of the UTF-8 encoding of a character, as a character. -/
def leadByte (c : Char) : Char :=
  if c.toNat < 128 then c
  else if c.toNat < 2048 then Char.ofNat (192 + c.toNat / 64)
  else if c.toNat < 65536 then Char.ofNat (224 + c.toNat / 4096)
  else Char.ofNat (240 + c.toNat / 262144)

/-- The verb `%q` on the first byte of a character: the byte as a quoted
character literal. -/
def quoteByte (c : Char) : String :=
  String.mk (Char.ofNat 39 :: (quoteChar (Char.ofNat 39) (leadByte c) ++ [Char.ofNat 39]))

/-- The error of pflag when the value given to a switch is no boolean. -/
def invalidBool (value flagName : String) : String :=
  "invalid argument " ++ Quote value ++ " for " ++ Quote flagName ++
    " flag: strconv.ParseBool: parsing " ++ Quote value ++ ": invalid syntax"

/-- `strings.SplitN(name, "=", 2)`: the name before the first `=` and the value
after it, if there is one. -/
def splitEq : List Char → List Char × Option (List Char)
  | [] => ([], none)
  | c :: cs =>
    if c = '=' then ([], some cs)
    else ((c :: (splitEq cs).1), (splitEq cs).2)

/-- The loop of `parseShortArg` of pflag over the shorthand letters of one
argument.  Both shorthands are switches: a letter followed by `=` and a value
takes the value, any other sets the switch and goes on with the next letter.
Returns the values of `help` and `version`, or the error. -/
def parseShorts : List Char → Bool → Bool → Except String (Bool × Bool)
  | [], h, v => Except.ok (h, v)
  | c :: cs, h, v =>
    if ("test." : String).data.isPrefixOf (c :: cs) then Except.ok (h, v)
    else
      match lookupShort c with
      | some Flag.help =>
        match cs with
        | '=' :: x :: val =>
          match ParseBool (String.mk (x :: val)) with
          | some b => Except.ok (b, v)
          | none => Except.error (invalidBool (String.mk (x :: val)) "-h, --help")
        | _ => parseShorts cs true v
      | some Flag.version =>
        match cs with
        | '=' :: x :: val =>
          match ParseBool (String.mk (x :: val)) with
          | some b => Except.ok (h, b)
          | none => Except.error (invalidBool (String.mk (x :: val)) "-v, --version")
        | _ => parseShorts cs h true
      | _ =>
        Except.error ("unknown shorthand flag: " ++ quoteByte c ++ " in -" ++ String.mk (c :: cs))

/-- The loop of `parseArgs` of pflag for the flags of this command.  The
accumulators are the current values of the flag variables.  An argument that is
empty, is `-` or does not start with `-` is a positional argument, which the
root command accepts; `--` ends the flags; `--name` and `--name=value` set a
flag, `--config` and `--model` taking the next argument as value when none is
given; any other argument is a group of shorthand letters. -/
def parseFlags : List String → String → String → Bool → Bool → Parsed
  | [], c, m, h, v => Parsed.flags c m h v
  | s :: rest, c, m, h, v =>
    match s.data with
    | ['-', '-'] => Parsed.flags c m h v
    | '-' :: '-' :: name =>
      if name.head? = some '-' ∨ name.head? = some '=' then
        Parsed.error ("bad flag syntax: " ++ s)
      else
        match lookupLong (String.mk (splitEq name).1), (splitEq name).2 with
        | none, _ => Parsed.error ("unknown flag: --" ++ String.mk (splitEq name).1)
        | some Flag.config, some x => parseFlags rest (String.mk x) m h v
        | some Flag.config, none =>
          match rest with
          | [] => Parsed.error ("flag needs an argument: " ++ s)
          | x :: rest1 => parseFlags rest1 x m h v
        | some Flag.model, some x => parseFlags rest c (String.mk x) h v
        | some Flag.model, none =>
          match rest with
          | [] => Parsed.error ("flag needs an argument: " ++ s)
          | x :: rest1 => parseFlags rest1 c x h v
        | some Flag.help, some x =>
          match ParseBool (String.mk x) with
          | some b => parseFlags rest c m b v
          | none => Parsed.error (invalidBool (String.mk x) "-h, --help")
        | some Flag.help, none => parseFlags rest c m true v
        | some Flag.version, some x =>
          match ParseBool (String.mk x) with
          | some b => parseFlags rest c m h b
          | none => Parsed.error (invalidBool (String.mk x) "-v, --version")
        | some Flag.version, none => parseFlags rest c m h true
    | '-' :: x :: shorts =>
      match parseShorts (x :: shorts) h v with
      | Except.error e => Parsed.error e
      | Except.ok (h1, v1) => parseFlags rest c m h1 v1
    | _ => parseFlags rest c m h v

/-- Whether cobra, looking for a subcommand before the flags are parsed, takes
the argument for a flag followed by its value: a long flag without `=`, or a
single shorthand letter. -/
def takesNext (s : String) : Bool :=
  (("--" : String).data.isPrefixOf s.data && !s.data.contains '=') ||
    (("-" : String).data.isPrefixOf s.data && !s.data.contains '=' && s.utf8ByteSize == 2)

/-- The function `stripFlags` of cobra: the arguments that are neither flags nor
values of flags, up to `--`. -/
def stripFlags : List String → List String
  | [] => []
  | s :: args =>
    if s = "--" then []
    else if takesNext s then
      match args with
      | _ :: x :: rest => stripFlags (x :: rest)
      | _ => []
    else if s ≠ "" ∧ ¬ ("-" : String).data.isPrefixOf s.data then s :: stripFlags args
    else stripFlags args

/-- The function `argsMinusFirstX` of cobra: the arguments without the first
one that is neither a flag nor the value of a flag and equals `x`. -/
def argsMinusFirstX (x : String) : List String → List String
  | [] => []
  | s :: args =>
    if s = "--" then s :: args
    else if takesNext s then
      match args with
      | [] => [s]
      | y :: rest => s :: y :: argsMinusFirstX x rest
    else if ¬ ("-" : String).data.isPrefixOf s.data ∧ s = x then args
    else s :: argsMinusFirstX x args

/-- What cobra makes of the arguments: when the first argument that is neither
a flag nor the value of a flag is `__complete` or `__completeNoDesc`, the hidden
completion command is run on the other arguments; otherwise the flags are
parsed.  The accumulators are the current values of the flag variables. -/
def parseArgs (args : List String) (c m : String) (h v : Bool) : Parsed :=
  match (stripFlags args).head? with
  | some cmd =>
    if cmd = "__complete" ∨ cmd = "__completeNoDesc" then
      Parsed.complete (argsMinusFirstX cmd args)
    else parseFlags args c m h v
  | none => parseFlags args c m h v

/-- The build-time variable `version` of main.go. -/
def version : String := "dev"

/-- `rootCmd.Execute()`: cobra runs its hidden completion command when the
arguments ask for it, which needs one argument at least; otherwise it parses
the arguments into the flag variables and then prints the help text, prints the
version, or runs `RunE`, which is `commit.RunCommit`.  Returns the error of
`Execute` and the events.  `getModel` is what `config.GetModel()` returns when
`RunCommit` asks for it. -/
def Execute (env : Env) (getModel : String) (args : List String) (cfgFile model : String) :
    Option String × List Event :=
  match parseArgs args cfgFile model false false with
  | Parsed.error msg => (some msg, [])
  | Parsed.complete [] => (some "requires at least 1 arg(s), only received 0", [])
  | Parsed.complete (a :: rest) => (none, [Event.complete (a :: rest)])
  | Parsed.flags _ _ true _ => (none, [Event.help])
  | Parsed.flags _ _ false true =>
      (none, [Event.stdout (Sprintf "%s version %s\n" ["cmt", version])])
  | Parsed.flags _ _ false false => RunCommit env getModel

/-- `main()` of cmd/cmt/main.go: the final state and the exit code of the
process.  The functions `InitConfig` and `GetModel` of the package
internal/config are parameters: `InitConfig cfgFile model s` gives the state the
call leaves and the exit code when it ends the process, `GetModel s` the model
identifier the store then holds. -/
def main (InitConfig : String → String → State → State × Option Nat)
    (GetModel : State → String) (env : Env) (args : List String) (w : World) : State × Nat :=
  -- the flag variables hold their default, the empty string, until `Execute` parses
  let cfgFile := ""
  let model := ""
  let s0 := (State.start w).emit (Event.call "config.InitConfig" [cfgFile, model])
  match InitConfig cfgFile model s0 with
  | (s1, some code) => (s1, code)
  | (s1, none) =>
    match Execute env (GetModel s1) args cfgFile model with
    | (some err, t) =>
        ({ s1 with trace := s1.trace ++ t ++ [Event.stderr (Sprintf "Error: %v\n" [err])] }, 1)
    | (none, t) => ({ s1 with trace := s1.trace ++ t }, 0)

/-! ## internal/spinner: the loop of `Spinner.run` -/

/-- The glyph sequence `spinner` of `Spinner.run`. -/
def spinnerGlyphs : List String :=
  ["⠋", "⠙", "⠹", "⠸", "⠼", "⠴", "⠦", "⠧", "⠇", "⠏"]

/-- One write of the spinner loop to standard output. -/
inductive Write where
  /-- A frame, written by `fmt.Printf` in the `default` branch. -/
  | frame (text : String)
  /-- The line-clear sequence, written by `fmt.Print` in the `<-s.done` branch. -/
  | clear
  deriving DecidableEq, Repr

/-- The text of a write; the clear is carriage return, ESC, `[K`. -/
def Write.text : Write → String
  | Write.frame t => t
  | Write.clear => "\r\x1b[K"

/-- Where the goroutine that runs `Spinner.run` stands. -/
inductive LoopState where
  /-- At the `select` of the loop, with frame index `i`. -/
  | polling (i : Nat)
  /-- It has received from `s.done` and not yet written the clear. -/
  | clearing
  /-- It has returned. -/
  | done
  /-- It has stopped on an index out of range in `spinner[i]`. -/
  | panicked
  deriving DecidableEq, Repr

/-- One step of the goroutine that runs `Spinner.run(label)`.  At the `select`,
`signalled` tells whether a send on `s.done` is waiting: if so the loop receives
it, otherwise it takes the `default` branch, writes the frame of the current
index, sleeps and advances the index.  After the receive it writes the clear
and returns. -/
def Loop.step (label : String) (signalled : Bool) : LoopState → LoopState × List Write
  | LoopState.polling i =>
    if signalled then (LoopState.clearing, [])
    else
      match spinnerGlyphs[i]? with
      | none => (LoopState.panicked, [])
      | some glyph =>
        (LoopState.polling ((i + 1) % spinnerGlyphs.length),
         [Write.frame (Sprintf "\r🤔 %s Thinking with %s model..." [glyph, label])])
  | LoopState.clearing => (LoopState.done, [Write.clear])
  | LoopState.done => (LoopState.done, [])
  | LoopState.panicked => (LoopState.panicked, [])

/-- The goroutine of `Spinner.run(label)` run on its own from the state `st`:
each element of the list is what one `select` finds (`true`: the stop signal).
Returns the state reached and the writes in order.  `Spinner.Start` launches it
at `LoopState.polling 0`. -/
def Spinner.run (label : String) : LoopState → List Bool → LoopState × List Write
  | LoopState.polling i, b :: rest =>
    let r1 := Loop.step label b (LoopState.polling i)
    let r2 := Spinner.run label r1.1 rest
    (r2.1, r1.2 ++ r2.2)
  | LoopState.clearing, _ => Loop.step label false LoopState.clearing
  | st, _ => (st, [])

/-- The frame the loop writes for the glyph `glyph` and the label `label`. -/
def frameText (glyph label : String) : String :=
  "\r🤔 " ++ glyph ++ " Thinking with " ++ label ++ " model..."

/-! ## The main goroutine and the spinner loops side by side -/

/-- The steps of the main goroutine that concern the spinner and the terminal. -/
inductive MainOp where
  /-- `spinner := spinner.New(); spinner.Start(label)`: a new loop is launched. -/
  | start (label : String)
  /-- `spinner.Stop()` on the latest spinner: the send `s.done <- true`. -/
  | stop
  /-- Text written to the terminal. -/
  | print (text : String)
  deriving DecidableEq, Repr

/-- One item of terminal output and who wrote it. -/
inductive Out where
  /-- Written by the loop of the `k`-th spinner. -/
  | spinner (k : Nat) (w : Write)
  /-- Written by the main goroutine. -/
  | caller (text : String)
  deriving DecidableEq, Repr

/-- The running program: what the main goroutine still has to do, whether it is
blocked in the send of `Stop`, the loops launched so far with their labels, in
order of launch, and the terminal output so far. -/
structure Sys where
  main : List MainOp
  sending : Bool
  loops : List (String × LoopState)
  out : List Out
  deriving DecidableEq, Repr

/-- The scheduler picks the main goroutine or the loop of the `k`-th spinner. -/
inductive Choice where
  | main
  | loop (k : Nat)
  deriving DecidableEq, Repr

/-- Whether a loop is still at its `select`. -/
def LoopState.isPolling : LoopState → Bool
  | LoopState.polling _ => true
  | _ => false

/-- One step of the goroutine the scheduler picks.  `Start` launches a loop at
index 0.  The channel `done` is unbuffered: the send of `Stop` blocks until the
loop of that spinner receives, which it does at its next `select`; the receive
lets `Stop` return.  A goroutine that cannot move leaves the state as it is. -/
def Sys.step (s : Sys) : Choice → Sys
  | Choice.main =>
    match s.main with
    | [] => s
    | MainOp.start label :: rest =>
      { s with main := rest, loops := s.loops ++ [(label, LoopState.polling 0)] }
    | MainOp.stop :: _ => { s with sending := true }
    | MainOp.print text :: rest => { s with main := rest, out := s.out ++ [Out.caller text] }
  | Choice.loop k =>
    match s.loops[k]? with
    | none => s
    | some (label, st) =>
      let signalled := s.sending && (k + 1 == s.loops.length)
      let r := Loop.step label signalled st
      let received := signalled && st.isPolling
      { main := if received then s.main.tail else s.main
        sending := if received then false else s.sending
        loops := s.loops.set k (label, r.1)
        out := s.out ++ r.2.map (Out.spinner k) }

/-- The state at the start of the main program `prog`. -/
def Sys.init (prog : List MainOp) : Sys :=
  { main := prog, sending := false, loops := [], out := [] }

/-- The state after the scheduler's choices `sched`, taken in order. -/
def Sys.exec (s : Sys) (sched : List Choice) : Sys :=
  sched.foldl Sys.step s

/-- The spinner and terminal steps of a run of the main flow, read off its
events. -/
def programOf : List Event → List MainOp
  | [] => []
  | Event.spinnerStart label :: es => MainOp.start label :: programOf es
  | Event.spinnerStop :: es => MainOp.stop :: programOf es
  | Event.stdout text :: es => MainOp.print text :: programOf es
  | Event.stderr text :: es => MainOp.print text :: programOf es
  | _ :: es => programOf es

/-- The main program of `n` cycles of `New`, `Start(label)`, `Stop`. -/
def cycles (label : String) : Nat → List MainOp
  | 0 => []
  | n + 1 => MainOp.start label :: MainOp.stop :: cycles label n

/-- The number of loops that are still at their `select`. -/
def pollingCount (loops : List (String × LoopState)) : Nat :=
  loops.countP (fun l => l.2.isPolling)

/-- The number of loops that have not returned. -/
def liveCount (loops : List (String × LoopState)) : Nat :=
  loops.countP (fun l => l.2 != LoopState.done)

/-- Whether the write is a frame. -/
def Out.isFrame : Out → Bool
  | Out.spinner _ (Write.frame _) => true
  | _ => false

/-- Whether the output item was written by the main goroutine. -/
def Out.isCaller : Out → Bool
  | Out.caller _ => true
  | _ => false

/-- Whether a loop has received its stop signal: it is about to write the
clear, or it has returned. -/
def LoopState.settled : LoopState → Bool
  | LoopState.clearing => true
  | LoopState.done => true
  | _ => false

/-- The terminal output splits into a first part without output of the main
goroutine and a second part without frames: every frame comes before every
output of the main goroutine. -/
def FramesFirst (out : List Out) : Prop :=
  ∃ pre post, out = pre ++ post ∧ (∀ x ∈ pre, x.isCaller = false) ∧
    (∀ x ∈ post, x.isFrame = false)

/-- What holds in every state of a run of a main program made of `n` cycles of
`Start(label)`, `Stop` followed by prints, `m` of the cycles still to come.
Either the main goroutine is between two cycles or in the prints: it is not
sending, every loop has received its signal, and nothing is printed before the
last cycle is over.  Or it is inside a cycle, before the return of `Stop`: the
latest loop is at its `select` with an index below 10, every earlier loop has
received its signal, and the main goroutine has printed nothing.  There is one
loop for each cycle begun. -/
def Inv (label : String) (n : Nat) (s : Sys) : Prop :=
  FramesFirst s.out ∧
    ((∃ m texts, s.main = cycles label m ++ List.map MainOp.print texts ∧ s.sending = false ∧
        (∀ l ∈ s.loops, l.2.settled = true) ∧ (m = 0 ∨ ∀ x ∈ s.out, x.isCaller = false) ∧
        s.loops.length + m = n) ∨
      (∃ m texts olds i,
        s.main = MainOp.stop :: (cycles label m ++ List.map MainOp.print texts) ∧
        s.loops = olds ++ [(label, LoopState.polling i)] ∧ i < 10 ∧
        (∀ l ∈ olds, l.2.settled = true) ∧ (∀ x ∈ s.out, x.isCaller = false) ∧
        olds.length + 1 + m = n))

/-- Whether the step of the main goroutine is a `Start`. -/
def MainOp.isStart : MainOp → Bool
  | MainOp.start _ => true
  | _ => false

/-- The state of `n` cycles of `New`, `Start(label)`, `Stop` after the
scheduler's choices `sched`. -/
def cyclesRun (label : String) (n : Nat) (sched : List Choice) : Sys :=
  (Sys.init (cycles label n)).exec sched

/-- The text of an item of terminal output. -/
def Out.text : Out → String
  | Out.spinner _ w => w.text
  | Out.caller t => t

/-- The text on the terminal: the texts of the items, in order. -/
def streamText : List Out → String
  | [] => ""
  | x :: xs => x.text ++ streamText xs

/-- The texts the main goroutine has written, in order. -/
def callerTexts : List Out → List String
  | [] => []
  | Out.caller t :: xs => t :: callerTexts xs
  | Out.spinner _ _ :: xs => callerTexts xs

/-- The texts the main goroutine still has to print, in order. -/
def printTexts : List MainOp → List String
  | [] => []
  | MainOp.print t :: ops => t :: printTexts ops
  | MainOp.start _ :: ops => printTexts ops
  | MainOp.stop :: ops => printTexts ops

/-- The writes of the loop of the `k`-th spinner, in order. -/
def writesOf (k : Nat) : List Out → List Write
  | [] => []
  | Out.spinner j w :: xs => if j = k then w :: writesOf k xs else writesOf k xs
  | Out.caller _ :: xs => writesOf k xs

/-- Whether the write is a frame. -/
def Write.isFrame : Write → Bool
  | Write.frame _ => true
  | Write.clear => false

/-- What a loop in the state `st` has written: frames only while it has not
returned, and frames followed by the one clear once it has. -/
def LoopWrites (st : LoopState) (ws : List Write) : Prop :=
  ∃ frames, (∀ w ∈ frames, w.isFrame = true) ∧
    ((st ≠ LoopState.done ∧ ws = frames) ∨ (st = LoopState.done ∧ ws = frames ++ [Write.clear]))

/-- The state of a run of `RunCommit` side by side with the loop of its
spinner, after the scheduler's choices `sched`. -/
def commitRun (env : Env) (getModel : String) (sched : List Choice) : Sys :=
  (Sys.init (programOf (RunCommit env getModel).2)).exec sched

/-! ## Sample worlds -/

/-- An environment with the runner installed, inside a repository, nothing
staged. -/
def envNothingStaged : Env :=
  { lookPathOllama := none, gitRevParse := none, gitDiffCached := Except.ok "",
    ollamaRun := fun _ _ => Except.ok "git commit -m \"feat: x\"" }

/-- An environment with a staged change and a runner that answers every
invocation, whatever the model identifier, with a padded commit command. -/
def envAnswering : Env :=
  { lookPathOllama := none, gitRevParse := none, gitDiffCached := Except.ok "+new line\n",
    ollamaRun := fun _ _ => Except.ok "\n  git commit -m \"feat: x\" \n" }

/-- An environment whose runner exits zero having printed only white space. -/
def envBlank : Env :=
  { lookPathOllama := none, gitRevParse := none, gitDiffCached := Except.ok "+new line\n",
    ollamaRun := fun _ _ => Except.ok " \n\t\n" }

/-- A world with a home directory, no settings file, and a writable disk. -/
def worldFresh : World :=
  { home := "/home/u", cwd := "srv/repo", expandEnv := fun p => p, files := fun _ => none,
    writeError := fun _ => none }

/-- A world with a home directory and no settings file, where files cannot be
created. -/
def worldReadOnly : World :=
  { home := "/home/u", cwd := "srv/repo", expandEnv := fun p => p, files := fun _ => none,
    writeError := fun f => some ("open " ++ f ++ ": permission denied") }

/-- A world with no settings file whose home directory holds a reference to
the variable `b`, which is not set: expanding the references drops it. -/
def worldDollarHome : World :=
  { home := "/tmp/a$b", cwd := "srv/repo",
    expandEnv := fun p => if p = "/tmp/a$b" then "/tmp/a" else p,
    files := fun _ => none, writeError := fun _ => none }

/-- A world with no settings file whose home directory is given relative to the
working directory. -/
def worldRelativeHome : World :=
  { home := "vh/", cwd := "tmp", expandEnv := fun p => p, files := fun _ => none,
    writeError := fun _ => none }

/-- A world whose home-directory settings file does not decode. -/
def worldMalformed : World :=
  { home := "/home/u", cwd := "srv/repo", expandEnv := fun p => p,
    files := fun f => if f = "/home/u/.cmt.yaml" then
      some (FileData.unreadable "While parsing config: yaml: did not find expected node content")
      else none,
    writeError := fun _ => none }

/-- A world with a home-directory settings file naming one model and a second
settings file elsewhere naming another. -/
def worldTwoFiles : World :=
  { home := "/home/u", cwd := "srv/repo", expandEnv := fun p => p,
    files := fun f =>
      if f = "/home/u/.cmt.yaml" then some (FileData.settings (some "llama3.1"))
      else if f = "/tmp/alt.yaml" then some (FileData.settings (some "mistral"))
      else none,
    writeError := fun _ => none }

/-- The model identifier of the first invocation `ollama run <model> <prompt>`
in a run, if there is one. -/
def completionModel : List Event → Option String
  | [] => none
  | Event.exec "ollama" ["run", model, _] :: _ => some model
  | _ :: es => completionModel es

/-! ## Lemmas on the library functions -/

theorem sprintfAux_plain (l : List Char) (as : List String) (h : '%' ∉ l) :
    sprintfAux l as = l := by
  induction l with
  | nil => simp [sprintfAux]
  | cons c rest ih =>
    have hc : c ≠ '%' := fun e => h (by simp [e])
    have hr : '%' ∉ rest := fun e => h (by simp [e])
    rw [sprintfAux.eq_7, ih hr]
    all_goals (intros; simp_all)

theorem sprintfAux_verb_v (l rest : List Char) (a : String) (as : List String)
    (h : '%' ∉ l) :
    sprintfAux (l ++ '%' :: 'v' :: rest) (a :: as) = l ++ (a.data ++ sprintfAux rest as) := by
  induction l with
  | nil => simp [sprintfAux]
  | cons c l ih =>
    have hc : c ≠ '%' := fun e => h (by simp [e])
    have hr : '%' ∉ l := fun e => h (by simp [e])
    rw [List.cons_append, sprintfAux.eq_7, ih hr, List.cons_append]
    all_goals (intros; simp_all)

theorem sprintfAux_verb_s (l rest : List Char) (a : String) (as : List String)
    (h : '%' ∉ l) :
    sprintfAux (l ++ '%' :: 's' :: rest) (a :: as) = l ++ (a.data ++ sprintfAux rest as) := by
  induction l with
  | nil => simp [sprintfAux]
  | cons c l ih =>
    have hc : c ≠ '%' := fun e => h (by simp [e])
    have hr : '%' ∉ l := fun e => h (by simp [e])
    rw [List.cons_append, sprintfAux.eq_7, ih hr, List.cons_append]
    all_goals (intros; simp_all)

/-- A format without verbs and without operands prints as it is. -/
theorem Sprintf_plain (format : String) (h : '%' ∉ format.data) :
    Sprintf format [] = format := by
  simp [Sprintf, sprintfAux_plain _ _ h]

/-- A format with the single verb `%v` prints the operand in its place. -/
theorem Sprintf_one_v (pre post e : String) (h : '%' ∉ pre.data) (h2 : '%' ∉ post.data) :
    Sprintf (pre ++ "%v" ++ post) [e] = pre ++ e ++ post := by
  have hd : (pre ++ "%v" ++ post).data = pre.data ++ '%' :: 'v' :: post.data := by simp
  apply String.ext
  simp [Sprintf, hd, sprintfAux_verb_v _ _ _ _ h, sprintfAux_plain _ _ h2]

/-- A format with the single verb `%s` prints the operand in its place. -/
theorem Sprintf_one_s (pre post e : String) (h : '%' ∉ pre.data) (h2 : '%' ∉ post.data) :
    Sprintf (pre ++ "%s" ++ post) [e] = pre ++ e ++ post := by
  have hd : (pre ++ "%s" ++ post).data = pre.data ++ '%' :: 's' :: post.data := by simp
  apply String.ext
  simp [Sprintf, hd, sprintfAux_verb_s _ _ _ _ h, sprintfAux_plain _ _ h2]

theorem generate_error_text (e : String) :
    Sprintf "failed to generate commit message: %v" [e] =
      "failed to generate commit message: " ++ e := by
  have h := Sprintf_one_v "failed to generate commit message: " "" e (by decide) (by decide)
  simpa using h

theorem no_staged_text :
    Sprintf "no staged changes found. Please stage your changes using 'git add' first" [] =
      "no staged changes found. Please stage your changes using 'git add' first" :=
  Sprintf_plain _ (by decide)

/-- The trimmed text sits inside the original between two runs of white space
and neither starts nor ends with white space. -/
theorem trimSpace_split (s : String) :
    ∃ l r : List Char, s.data = l ++ (TrimSpace s).data ++ r ∧
      (∀ c ∈ l, isSpace c = true) ∧ (∀ c ∈ r, isSpace c = true) ∧
      (∀ c, (TrimSpace s).data.head? = some c → isSpace c = false) ∧
      (∀ c, (TrimSpace s).data.getLast? = some c → isSpace c = false) := by
  have h1 := List.takeWhile_append_dropWhile isSpace s.data
  have h2 := List.takeWhile_append_dropWhile isSpace (s.data.dropWhile isSpace).reverse
  have h3 := congrArg List.reverse h2
  simp only [List.reverse_append, List.reverse_reverse] at h3
  refine ⟨s.data.takeWhile isSpace,
    ((s.data.dropWhile isSpace).reverse.takeWhile isSpace).reverse, ?_, ?_, ?_, ?_, ?_⟩
  · simp only [TrimSpace, trimLeft, trimRight, List.append_assoc]
    rw [h3, h1]
  · intro c hc
    exact List.mem_takeWhile_imp hc
  · intro c hc
    exact List.mem_takeWhile_imp (List.mem_reverse.mp hc)
  · intro c hc
    simp only [TrimSpace, trimLeft, trimRight] at hc
    have h4 : (s.data.dropWhile isSpace).head? = some c := by
      rw [← h3, List.head?_append, hc]
      rfl
    have := List.head?_dropWhile_not isSpace s.data
    rw [h4] at this
    simpa using this
  · intro c hc
    simp only [TrimSpace, trimLeft, trimRight, List.getLast?_reverse] at hc
    have := List.head?_dropWhile_not isSpace (s.data.dropWhile isSpace).reverse
    rw [hc] at this
    simpa using this

/-! ## Lemmas on paths -/

theorem splitSlash_ne_nil (p : List Char) : splitSlash p ≠ [] := by
  cases p with
  | nil => simp [splitSlash]
  | cons c cs =>
    simp only [splitSlash]
    split
    · simp
    · split <;> simp

theorem splitSlash_append (a b : List Char) :
    splitSlash (a ++ '/' :: b) = splitSlash a ++ splitSlash b := by
  induction a with
  | nil => simp [splitSlash]
  | cons c cs ih =>
    by_cases hc : c = '/'
    · simp [splitSlash, hc, ih]
    · cases h : splitSlash cs with
      | nil => exact absurd h (splitSlash_ne_nil cs)
      | cons e es =>
        simp only [List.cons_append, splitSlash, hc, if_false]
        change (match splitSlash (cs ++ '/' :: b) with
          | [] => [[c]]
          | e :: es => (c :: e) :: es) = _
        rw [ih, h]
        rfl

theorem splitSlash_plain (e : List Char) (h : '/' ∉ e) : splitSlash e = [e] := by
  induction e with
  | nil => rfl
  | cons c cs ih =>
    have hc : c ≠ '/' := fun hc => h (by simp [hc])
    have hcs : '/' ∉ cs := fun hm => h (List.mem_cons_of_mem _ hm)
    simp [splitSlash, hc, ih hcs]

theorem splitSlash_mem (p : List Char) : ∀ e ∈ splitSlash p, '/' ∉ e := by
  induction p with
  | nil => simp [splitSlash]
  | cons c cs ih =>
    by_cases hc : c = '/'
    · simp only [splitSlash, hc, if_true]
      intro e he
      rcases List.mem_cons.mp he with rfl | he
      · simp
      · exact ih e he
    · simp only [splitSlash, hc, if_false]
      cases h : splitSlash cs with
      | nil => exact absurd h (splitSlash_ne_nil cs)
      | cons e es =>
        rw [h] at ih
        intro x hx
        rcases List.mem_cons.mp hx with rfl | hx
        · intro hm
          rcases List.mem_cons.mp hm with hm | hm
          · exact hc hm.symm
          · exact ih e (List.mem_cons_self _ _) hm
        · exact ih x (List.mem_cons_of_mem _ hx)

theorem splitSlash_joinSlash (xs : List (List Char)) (hne : xs ≠ [])
    (h : ∀ e ∈ xs, '/' ∉ e) : splitSlash (joinSlash xs) = xs := by
  induction xs with
  | nil => exact absurd rfl hne
  | cons e es ih =>
    cases es with
    | nil => exact splitSlash_plain e (h e (List.mem_cons_self _ _))
    | cons e2 es2 =>
      have htail : ∀ x ∈ e2 :: es2, '/' ∉ x := fun x hx => h x (List.mem_cons_of_mem _ hx)
      simp only [joinSlash]
      rw [splitSlash_append, splitSlash_plain e (h e (List.mem_cons_self _ _)),
        ih (by simp) htail]
      rfl

theorem joinSlash_snoc (pre : List (List Char)) (a : List Char) :
    joinSlash (pre ++ [a]) = if pre = [] then a else joinSlash pre ++ '/' :: a := by
  induction pre with
  | nil => rfl
  | cons e es ih =>
    cases es with
    | nil => simp [joinSlash]
    | cons e2 es2 =>
      have hj : joinSlash (e :: e2 :: es2 ++ [a]) =
          e ++ '/' :: joinSlash (e2 :: es2 ++ [a]) := rfl
      rw [hj, ih]
      simp [joinSlash]

theorem pushElem_plain (rooted : Bool) (st : List (List Char)) (e : List Char) (h : Plain e) :
    pushElem rooted st e = e :: st := by
  obtain ⟨⟨h1, h2, _⟩, h3⟩ := h
  simp [pushElem, h1, h2, h3]

theorem foldl_push_plain (rooted : Bool) (xs : List (List Char)) :
    ∀ S, (∀ e ∈ xs, Plain e) → xs.foldl (pushElem rooted) S = xs.reverse ++ S := by
  induction xs with
  | nil => intro S _; rfl
  | cons x xs ih =>
    intro S h
    simp only [List.foldl_cons]
    rw [pushElem_plain rooted S x (h x (List.mem_cons_self _ _)),
      ih _ (fun e he => h e (List.mem_cons_of_mem _ he))]
    simp

theorem pushElem_kept (rooted : Bool) (st : List (List Char)) (e : List Char)
    (he : '/' ∉ e) (h : ∀ t ∈ st, Kept t) : ∀ t ∈ pushElem rooted st e, Kept t := by
  unfold pushElem
  split
  · exact h
  · rename_i h1
    have hkept : Kept e := ⟨fun h0 => h1 (Or.inl h0), fun h0 => h1 (Or.inr h0), he⟩
    split
    · split
      · split
        · simp
        · intro t ht
          rw [List.mem_singleton] at ht
          rw [ht]; exact hkept
      · split
        · intro t ht
          rcases List.mem_cons.mp ht with rfl | ht
          · exact hkept
          · exact h t ht
        · intro t ht
          exact h t (List.mem_cons_of_mem _ ht)
    · intro t ht
      rcases List.mem_cons.mp ht with rfl | ht
      · exact hkept
      · exact h t ht

theorem pushElem_rooted_plain (st : List (List Char)) (e : List Char)
    (he : '/' ∉ e) (h : ∀ t ∈ st, Plain t) : ∀ t ∈ pushElem true st e, Plain t := by
  unfold pushElem
  split
  · exact h
  · rename_i h1
    have hkept : Kept e := ⟨fun h0 => h1 (Or.inl h0), fun h0 => h1 (Or.inr h0), he⟩
    split
    · split
      · simp
      · split
        · rename_i t rest htop
          exact absurd htop (h t (List.mem_cons_self _ _)).2
        · intro t ht
          exact h t (List.mem_cons_of_mem _ ht)
    · rename_i h2
      intro t ht
      rcases List.mem_cons.mp ht with rfl | ht
      · exact ⟨hkept, h2⟩
      · exact h t ht

theorem foldl_push_kept (rooted : Bool) (es : List (List Char)) :
    ∀ st, (∀ e ∈ es, '/' ∉ e) → (∀ t ∈ st, Kept t) →
      ∀ t ∈ es.foldl (pushElem rooted) st, Kept t := by
  induction es with
  | nil => intro st _ h; exact h
  | cons e es ih =>
    intro st he h
    exact ih _ (fun x hx => he x (List.mem_cons_of_mem _ hx))
      (pushElem_kept rooted st e (he e (List.mem_cons_self _ _)) h)

theorem foldl_push_rooted_plain (es : List (List Char)) :
    ∀ st, (∀ e ∈ es, '/' ∉ e) → (∀ t ∈ st, Plain t) →
      ∀ t ∈ es.foldl (pushElem true) st, Plain t := by
  induction es with
  | nil => intro st _ h; exact h
  | cons e es ih =>
    intro st he h
    exact ih _ (fun x hx => he x (List.mem_cons_of_mem _ hx))
      (pushElem_rooted_plain st e (he e (List.mem_cons_self _ _)) h)

/-- Pushing the elements of a rooted clean path gives back the elements. -/
theorem foldl_push_render_rooted (st S : List (List Char)) (h : ∀ t ∈ st, Plain t) :
    (splitSlash (renderPath true st)).foldl (pushElem true) S = st ++ S := by
  simp only [renderPath, if_true, splitSlash]
  cases hst : st.reverse with
  | nil =>
    have : st = [] := by simpa using hst
    subst this
    simp [joinSlash, splitSlash, pushElem]
  | cons x xs =>
    rw [← hst, splitSlash_joinSlash st.reverse (by rw [hst]; simp)
      (fun e he => (h e (List.mem_reverse.mp he)).1.2.2)]
    simp only [List.foldl_cons]
    have h0 : pushElem true S [] = S := by simp [pushElem]
    rw [h0, foldl_push_plain true st.reverse S (fun e he => h e (List.mem_reverse.mp he))]
    simp

/-- Pushing the elements of a clean path that is not rooted is pushing the
elements kept. -/
theorem foldl_push_render_free (r : Bool) (T S : List (List Char)) (h : ∀ t ∈ T, Kept t) :
    (splitSlash (renderPath false T)).foldl (pushElem r) S = T.reverse.foldl (pushElem r) S := by
  cases T with
  | nil => simp [renderPath, splitSlash, pushElem]
  | cons t ts =>
    simp only [renderPath, Bool.false_eq_true, if_false, List.cons_ne_nil]
    rw [splitSlash_joinSlash _ (by simp) (fun e he => (h e (List.mem_reverse.mp he)).2.2)]

/-- Cleaning the second part of a path first does not change what is kept of
the whole, when the whole is rooted. -/
theorem foldl_push_cleaned (es : List (List Char)) :
    ∀ S T, (∀ t ∈ T, Kept t) → (∀ e ∈ es, '/' ∉ e) →
      (es.foldl (pushElem false) T).reverse.foldl (pushElem true) S =
        es.foldl (pushElem true) (T.reverse.foldl (pushElem true) S) := by
  induction es with
  | nil => intro S T _ _; rfl
  | cons e es ih =>
    intro S T hT he
    have he1 : '/' ∉ e := he e (List.mem_cons_self _ _)
    simp only [List.foldl_cons]
    rw [ih S (pushElem false T e) (pushElem_kept false T e he1 hT)
      (fun x hx => he x (List.mem_cons_of_mem _ hx))]
    congr 1
    by_cases h1 : e = [] ∨ e = ['.']
    · simp [pushElem, h1]
    · by_cases h2 : e = ['.', '.']
      · subst h2
        cases T with
        | nil => simp [pushElem]
        | cons t ts =>
          by_cases h3 : t = ['.', '.']
          · subst h3
            simp [pushElem, List.foldl_append]
          · have ht := hT t (List.mem_cons_self _ _)
            have hp : pushElem false (t :: ts) ['.', '.'] = ts := by simp [pushElem, h3]
            rw [hp]
            simp only [List.reverse_cons, List.foldl_append, List.foldl_cons, List.foldl_nil]
            rw [pushElem_plain true _ t ⟨ht, h3⟩]
            simp [pushElem, h3]
      · have hp : ∀ r st, pushElem r st e = e :: st := by
          intro r st
          simp [pushElem, h1, h2]
        rw [hp, hp]
        simp [List.foldl_append, hp]

theorem isRooted_append (a b : List Char) (h : a ≠ []) : isRooted (a ++ b) = isRooted a := by
  cases a with
  | nil => exact absurd rfl h
  | cons c cs => rfl

theorem isRooted_render_rooted (st : List (List Char)) : isRooted (renderPath true st) = true := by
  simp [renderPath, isRooted]

theorem joinSlash_head (x : List Char) (xs : List (List Char)) (c : Char) (cs : List Char)
    (h : x = c :: cs) : (joinSlash (x :: xs)).head? = some c := by
  subst h
  cases xs <;> simp [joinSlash]

theorem isRooted_render_free (T : List (List Char)) (h : ∀ t ∈ T, Kept t) :
    isRooted (renderPath false T) = false := by
  cases hT : T.reverse with
  | nil =>
    have : T = [] := by simpa using hT
    subst this
    simp [renderPath, isRooted]
  | cons x xs =>
    have hne : T ≠ [] := by
      intro h0
      rw [h0] at hT
      simp at hT
    have hx : Kept x := h x (List.mem_reverse.mp (by rw [hT]; exact List.mem_cons_self _ _))
    simp only [renderPath, Bool.false_eq_true, if_false, hne, hT]
    cases hxc : x with
    | nil => exact absurd hxc hx.1
    | cons c cs =>
      have hc : c ≠ '/' := by
        intro hc
        apply hx.2.2
        rw [hxc, hc]
        exact List.mem_cons_self _ _
      rw [← hxc]
      simp only [isRooted, joinSlash_head x xs c cs hxc]
      simpa using hc

theorem cleanStack_kept (p : List Char) : ∀ t ∈ cleanStack p, Kept t :=
  foldl_push_kept _ _ [] (splitSlash_mem p) (by simp)

theorem cleanStack_rooted_plain (p : List Char) (h : isRooted p = true) :
    ∀ t ∈ cleanStack p, Plain t := by
  unfold cleanStack
  rw [h]
  exact foldl_push_rooted_plain _ [] (splitSlash_mem p) (by simp)

theorem renderPath_rooted_inj (X : List (List Char)) (a b : List Char)
    (h : renderPath true (a :: X) = renderPath true (b :: X)) : a = b := by
  simp only [renderPath, if_true, List.reverse_cons, List.cons.injEq, true_and] at h
  rw [joinSlash_snoc, joinSlash_snoc] at h
  by_cases hX : X.reverse = []
  · simpa [hX] using h
  · simp only [hX, if_false] at h
    have := List.append_cancel_left h
    simpa using this

theorem cleanStack_snoc (x n : List Char) (hx : x ≠ []) (hn : Plain n) :
    cleanStack (x ++ '/' :: n) = n :: cleanStack x := by
  unfold cleanStack
  rw [isRooted_append x _ hx, splitSlash_append, splitSlash_plain n hn.1.2.2,
    List.foldl_append]
  simp only [List.foldl_cons, List.foldl_nil]
  exact pushElem_plain _ _ n hn

theorem cleanStack_render_rooted (st : List (List Char)) (h : ∀ t ∈ st, Plain t) :
    cleanStack (renderPath true st) = st := by
  unfold cleanStack
  rw [isRooted_render_rooted, foldl_push_render_rooted st [] h]
  simp

theorem data_ne_nil (x : String) (h : x ≠ "") : x.data ≠ [] := by
  intro h0
  apply h
  exact String.ext h0

theorem join_data (x n : String) : (x ++ "/" ++ n).data = x.data ++ '/' :: n.data := by
  simp [String.data_append]

theorem joinPath_data (x n : String) (hx : x ≠ "") (hn : Plain n.data) :
    (joinPath x n).data = renderPath (isRooted x.data) (n.data :: cleanStack x.data) := by
  simp only [joinPath, hx, ne_eq, not_false_eq_true, if_true, Clean, join_data]
  rw [isRooted_append _ _ (data_ne_nil x hx), cleanStack_snoc _ _ (data_ne_nil x hx) hn]

/-- What is kept of a path joined to a rooted one. -/
theorem cleanStack_joined (g p : List Char) (hg : isRooted g = true) :
    cleanStack (g ++ '/' :: p) = (splitSlash p).foldl (pushElem true) (cleanStack g) := by
  have hne : g ≠ [] := by
    intro h0
    rw [h0] at hg
    simp [isRooted] at hg
  unfold cleanStack
  rw [isRooted_append g _ hne, hg, splitSlash_append, List.foldl_append]

theorem Clean_rooted (y : String) (hy : isRooted y.data = true) :
    (Clean y).data = renderPath true (cleanStack y.data) ∧ Clean y ≠ "" ∧
      isRooted (Clean y).data = true ∧ cleanStack (Clean y).data = cleanStack y.data := by
  have hd : (Clean y).data = renderPath true (cleanStack y.data) := by
    simp only [Clean, hy]
  refine ⟨hd, ?_, ?_, ?_⟩
  · intro h0
    have := congrArg String.data h0
    rw [hd] at this
    simp [renderPath] at this
  · rw [hd]
    exact isRooted_render_rooted _
  · rw [hd]
    exact cleanStack_render_rooted _ (cleanStack_rooted_plain _ hy)

theorem Getwd_rooted (w : World) : isRooted (Getwd w).data = true := by
  simp [Getwd, isRooted, String.data_append]

theorem Getwd_ne (w : World) : Getwd w ≠ "" := by
  intro h0
  have := congrArg String.data h0
  simp [Getwd, String.data_append] at this

theorem joinPath_Getwd_rooted (w : World) (p : String) :
    joinPath (Getwd w) p = Clean (Getwd w ++ "/" ++ p) ∧
      isRooted (Getwd w ++ "/" ++ p).data = true := by
  refine ⟨by simp [joinPath, Getwd_ne], ?_⟩
  rw [join_data, isRooted_append _ _ (data_ne_nil _ (Getwd_ne w))]
  exact Getwd_rooted w

/-- The directory `absPathify` returns is the clean form of a rooted path. -/
theorem absPathify_rooted (w : World) (inPath : String) :
    ∃ y, isRooted y.data = true ∧ absPathify w inPath = Clean y := by
  have key : ∀ p : String, ∃ y, isRooted y.data = true ∧
      (if IsAbs p then Clean p else Clean (Abs w p)) = Clean y := by
    intro p
    by_cases h : IsAbs p = true
    · exact ⟨p, h, by simp [h]⟩
    · refine ⟨Abs w p, ?_, by simp [h]⟩
      simp only [Abs, h, Bool.false_eq_true, if_false]
      rw [(joinPath_Getwd_rooted w _).1]
      exact (Clean_rooted _ (joinPath_Getwd_rooted w _).2).2.2.1
  exact key _

/-- A name joined to the directory of `absPathify`. -/
theorem joinPath_absPathify (w : World) (inPath : String) :
    ∃ X, ∀ n : String, Plain n.data →
      (joinPath (absPathify w inPath) n).data = renderPath true (n.data :: X) := by
  obtain ⟨y, hy, heq⟩ := absPathify_rooted w inPath
  obtain ⟨_, hne, hr, hst⟩ := Clean_rooted y hy
  refine ⟨cleanStack y.data, ?_⟩
  intro n hn
  rw [heq, joinPath_data _ _ hne hn, hr, hst]

theorem joinPath_absPathify_inj (w : World) (inPath a b : String) (ha : Plain a.data)
    (hb : Plain b.data) (h : joinPath (absPathify w inPath) a = joinPath (absPathify w inPath) b) :
    a = b := by
  obtain ⟨X, hX⟩ := joinPath_absPathify w inPath
  have := congrArg String.data h
  rw [hX a ha, hX b hb] at this
  exact String.ext (renderPath_rooted_inj X _ _ this)

theorem locate_absPathify (w : World) (inPath n : String) (hn : Plain n.data) :
    w.locate (joinPath (absPathify w inPath) n) = joinPath (absPathify w inPath) n := by
  obtain ⟨X, hX⟩ := joinPath_absPathify w inPath
  have : IsAbs (joinPath (absPathify w inPath) n) = true := by
    simp only [IsAbs, hX n hn]
    exact isRooted_render_rooted _
  simp [World.locate, this]

/-- The file written at `<home>/<name>` is the file found under the name in
the directory `AddConfigPath` stores for the home directory, when expanding
variable references leaves the home directory as it is. -/
theorem locate_joinPath_home (w : World) (home n : String) (hne : home ≠ "")
    (hx : '$' ∈ home.data → w.expandEnv home = home) (hn : Plain n.data) :
    w.locate (joinPath home n) = joinPath (absPathify w home) n := by
  have hd : (if '$' ∈ home.data then w.expandEnv home else home) = home := by
    split
    · exact hx (by assumption)
    · rfl
  apply String.ext
  by_cases hr : isRooted home.data = true
  · have hP : (joinPath home n).data = renderPath true (n.data :: cleanStack home.data) := by
      rw [joinPath_data _ _ hne hn, hr]
    have habs : IsAbs (joinPath home n) = true := by
      simp only [IsAbs, hP]
      exact isRooted_render_rooted _
    have hD : absPathify w home = Clean home := by
      simp [absPathify, hd, IsAbs, hr]
    obtain ⟨_, hne2, hr2, hst2⟩ := Clean_rooted home hr
    simp only [World.locate, habs, if_true]
    rw [hP, hD, joinPath_data _ _ hne2 hn, hr2, hst2]
  · have hr0 : isRooted home.data = false := by simpa using hr
    have hP : (joinPath home n).data = renderPath false (n.data :: cleanStack home.data) := by
      rw [joinPath_data _ _ hne hn, hr0]
    have hkept : ∀ t ∈ n.data :: cleanStack home.data, Kept t := by
      intro t ht
      rcases List.mem_cons.mp ht with rfl | ht
      · exact hn.1
      · exact cleanStack_kept _ t ht
    have hrel : IsAbs (joinPath home n) = false := by
      simp only [IsAbs, hP]
      exact isRooted_render_free _ hkept
    -- the directory of the search
    have hJ := joinPath_Getwd_rooted w home
    have hD : absPathify w home = Clean (Clean (Getwd w ++ "/" ++ home)) := by
      simp [absPathify, hd, IsAbs, hr0, Abs, hJ.1]
    obtain ⟨hd1, hne1, hr1, hst1⟩ := Clean_rooted _ hJ.2
    obtain ⟨hd2, hne2, hr2, hst2⟩ := Clean_rooted _ hr1
    -- the file written
    have hL := joinPath_Getwd_rooted w (joinPath home n)
    simp only [World.locate, hrel, Bool.false_eq_true, if_false]
    rw [hL.1, (Clean_rooted _ hL.2).1, hD, joinPath_data _ _ hne2 hn, hr2, hst2, hst1,
      join_data, join_data, cleanStack_joined _ _ (Getwd_rooted w),
      cleanStack_joined _ _ (Getwd_rooted w), hP,
      foldl_push_render_free true _ _ hkept]
    simp only [List.reverse_cons, List.foldl_append, List.foldl_cons, List.foldl_nil]
    rw [pushElem_plain true _ _ hn]
    congr 2
    have := foldl_push_cleaned (splitSlash home.data) (cleanStack (Getwd w).data) []
      (by simp) (splitSlash_mem _)
    simp only [List.reverse_nil, List.foldl_nil] at this
    rw [← this]
    simp [cleanStack, hr0]

/-! ## Lemmas on settings resolution -/

theorem UserHomeDir_ok (w : World) (home : String) (h : UserHomeDir w = Except.ok home) :
    home = w.home ∧ home ≠ "" := by
  unfold UserHomeDir at h
  split at h
  · rename_i hne
    simp only [Except.ok.injEq] at h
    subst h
    exact ⟨rfl, hne⟩
  · simp at h

theorem plain_names :
    Plain (".cmt.json" : String).data ∧ Plain (".cmt.toml" : String).data ∧
      Plain (".cmt.yaml" : String).data := by
  refine ⟨⟨⟨?_, ?_, ?_⟩, ?_⟩, ⟨⟨?_, ?_, ?_⟩, ?_⟩, ⟨⟨?_, ?_, ?_⟩, ?_⟩⟩ <;> decide

theorem reading_error_text (e : String) :
    Sprintf "Error reading config file: %v\n" [e] = "Error reading config file: " ++ e ++ "\n" :=
  Sprintf_one_v "Error reading config file: " "\n" e (by decide) (by decide)

theorem created_text (p : String) :
    Sprintf "Created default config file: %s\n" [p] =
      "Created default config file: " ++ p ++ "\n" :=
  Sprintf_one_s "Created default config file: " "\n" p (by decide) (by decide)

theorem initConfig_unreadable_aux (cfgFile : String) (w : World) (file err : String)
    (hres : resolvedFile cfgFile w = some file)
    (hf : w.files file = some (FileData.unreadable err)) :
    (initConfig cfgFile (State.start w)).2 = some 1 ∧
      (initConfig cfgFile (State.start w)).1.trace =
        [Event.stderr ("Error reading config file: " ++ err ++ "\n")] ∧
      (initConfig cfgFile (State.start w)).1.world = w := by
  unfold resolvedFile at hres
  by_cases hc : cfgFile = ""
  · subst hc
    cases hh : UserHomeDir w with
    | error e => simp [hh] at hres
    | ok home =>
      have hne := (UserHomeDir_ok w home hh).2
      simp only [hh, ne_eq, not_true_eq_false, if_false] at hres
      simp [initConfig, State.start, hh, hne, ReadInConfig, findConfigFile, hres, hf, State.emit,
        reading_error_text]
  · simp only [ne_eq, hc, not_false_eq_true, if_true, Option.some.injEq] at hres
    subst hres
    simp [initConfig, State.start, hc, ReadInConfig, hf, State.emit, reading_error_text]

theorem candidates_dir (home : String) :
    candidates ".cmt" "yaml" home =
      [joinPath home ".cmt.json", joinPath home ".cmt.toml", joinPath home ".cmt.yaml",
       joinPath home ".cmt.yml", joinPath home ".cmt.properties", joinPath home ".cmt.props",
       joinPath home ".cmt.prop", joinPath home ".cmt.hcl", joinPath home ".cmt.tfvars",
       joinPath home ".cmt.dotenv", joinPath home ".cmt.env", joinPath home ".cmt.ini",
       joinPath home ".cmt"] := by
  have e : ∀ ext full : String, ".cmt" ++ "." ++ ext = full →
      joinPath home (".cmt" ++ "." ++ ext) = joinPath home full := fun _ _ h => by rw [h]
  simp only [candidates, supportedExts, List.map_cons, List.map_nil]
  rw [e "json" ".cmt.json" (by decide), e "toml" ".cmt.toml" (by decide),
    e "yaml" ".cmt.yaml" (by decide), e "yml" ".cmt.yml" (by decide),
    e "properties" ".cmt.properties" (by decide), e "props" ".cmt.props" (by decide),
    e "prop" ".cmt.prop" (by decide), e "hcl" ".cmt.hcl" (by decide),
    e "tfvars" ".cmt.tfvars" (by decide), e "dotenv" ".cmt.dotenv" (by decide),
    e "env" ".cmt.env" (by decide), e "ini" ".cmt.ini" (by decide)]
  rfl

theorem creating_error_text (e : String) :
    Sprintf "Error creating config file: %v\n" [e] =
      "Error creating config file: " ++ e ++ "\n" :=
  Sprintf_one_v "Error creating config file: " "\n" e (by decide) (by decide)

theorem search_finds_nothing (w : World) (dir : String)
    (hn : ∀ f ∈ candidates ".cmt" "yaml" dir, w.files f = none) :
    (candidates ".cmt" "yaml" dir).find? (fun f => (w.files f).isSome) = none := by
  rw [List.find?_eq_none]
  intro f hf
  simp [hn f hf]

theorem initConfig_first_run (w : World) (home : String)
    (hh : UserHomeDir w = Except.ok home)
    (hn : ∀ f ∈ candidates ".cmt" "yaml" (absPathify w home), w.files f = none)
    (hw : w.writeError (joinPath home ".cmt.yaml") = none) :
    initConfig "" (State.start w) =
      ({ world := { w with
          files := fun f =>
            if w.locate f = w.locate (joinPath home ".cmt.yaml") then
              some (FileData.settings (some "llama3.1"))
            else w.files f },
         viper := { configPaths := [absPathify w home], configName := ".cmt",
                    configType := "yaml", defaults := some "llama3.1",
                    override := some "llama3.1" },
         trace := [Event.call "createDefaultConfig" [],
                   Event.writeFile (joinPath home ".cmt.yaml"),
                   Event.stdout ("Created default config file: " ++ joinPath home ".cmt.yaml" ++
                     "\n")] }, none) := by
  have hne := (UserHomeDir_ok w home hh).2
  have hfind := search_finds_nothing w _ hn
  simp [initConfig, State.start, hh, hne, ReadInConfig, findConfigFile, hfind,
    createDefaultConfig, WriteConfigAs, hw, State.emit, created_text, Viper.get]

theorem initConfig_write_fails (w : World) (home e : String)
    (hh : UserHomeDir w = Except.ok home)
    (hn : ∀ f ∈ candidates ".cmt" "yaml" (absPathify w home), w.files f = none)
    (hw : w.writeError (joinPath home ".cmt.yaml") = some e) :
    initConfig "" (State.start w) =
      ({ world := w,
         viper := { configPaths := [absPathify w home], configName := ".cmt",
                    configType := "yaml", defaults := some "llama3.1",
                    override := some "llama3.1" },
         trace := [Event.call "createDefaultConfig" [],
                   Event.writeFile (joinPath home ".cmt.yaml"),
                   Event.stderr ("Error creating config file: " ++ e ++ "\n")] }, some 1) := by
  have hne := (UserHomeDir_ok w home hh).2
  have hfind := search_finds_nothing w _ hn
  simp [initConfig, State.start, hh, hne, ReadInConfig, findConfigFile, hfind,
    createDefaultConfig, WriteConfigAs, hw, State.emit, creating_error_text]

theorem initConfig_second_run (w : World) (home : String)
    (hh : UserHomeDir w = Except.ok home)
    (hn : ∀ f ∈ candidates ".cmt" "yaml" (absPathify w home),
      f ≠ joinPath (absPathify w home) ".cmt.yaml" → w.files f = none)
    (hy : w.files (joinPath (absPathify w home) ".cmt.yaml") =
      some (FileData.settings (some "llama3.1"))) :
    initConfig "" (State.start w) =
      ({ world := w,
         viper := { configFile := joinPath (absPathify w home) ".cmt.yaml",
                    configPaths := [absPathify w home],
                    configName := ".cmt", configType := "yaml",
                    defaults := some "llama3.1", config := some "llama3.1" },
         trace := [] }, none) := by
  have hne := (UserHomeDir_ok w home hh).2
  have hj : w.files (joinPath (absPathify w home) ".cmt.json") = none :=
    hn _ (by simp [candidates_dir])
      (fun h => absurd (joinPath_absPathify_inj w home _ _ plain_names.1 plain_names.2.2 h)
        (by decide))
  have ht : w.files (joinPath (absPathify w home) ".cmt.toml") = none :=
    hn _ (by simp [candidates_dir])
      (fun h => absurd (joinPath_absPathify_inj w home _ _ plain_names.2.1 plain_names.2.2 h)
        (by decide))
  have hfind : (candidates ".cmt" "yaml" (absPathify w home)).find?
      (fun f => (w.files f).isSome) = some (joinPath (absPathify w home) ".cmt.yaml") := by
    simp [candidates_dir, List.find?, hj, ht, hy]
  simp [initConfig, State.start, hh, hne, ReadInConfig, findConfigFile, hfind, hy]

theorem candidates_located (w : World) (home : String) :
    ∀ f ∈ candidates ".cmt" "yaml" (absPathify w home), w.locate f = f := by
  intro f hf
  rw [candidates_dir] at hf
  simp only [List.mem_cons, List.mem_singleton, List.not_mem_nil, or_false] at hf
  rcases hf with rfl | rfl | rfl | rfl | rfl | rfl | rfl | rfl | rfl | rfl | rfl | rfl | rfl <;>
    apply locate_absPathify <;> (refine ⟨⟨?_, ?_, ?_⟩, ?_⟩ <;> decide)

/-- The second run of `initConfig`, in the world the first run leaves when it
has created the file. -/
theorem initConfig_rerun (w : World) (home : String)
    (hh : UserHomeDir w = Except.ok home)
    (hn : ∀ f ∈ candidates ".cmt" "yaml" (absPathify w home), w.files f = none)
    (hw : w.writeError (joinPath home ".cmt.yaml") = none)
    (hx : '$' ∈ home.data → w.expandEnv home = home) :
    initConfig "" (State.start (initConfig "" (State.start w)).1.world) =
      ({ world := (initConfig "" (State.start w)).1.world,
         viper := { configFile := joinPath (absPathify w home) ".cmt.yaml",
                    configPaths := [absPathify w home],
                    configName := ".cmt", configType := "yaml",
                    defaults := some "llama3.1", config := some "llama3.1" },
         trace := [] }, none) := by
  have hne := (UserHomeDir_ok w home hh).2
  have hloc := locate_joinPath_home w home ".cmt.yaml" hne hx plain_names.2.2
  rw [initConfig_first_run w home hh hn hw]
  refine initConfig_second_run _ home hh ?_ ?_
  · intro f hf hfne
    have hf2 : f ∈ candidates ".cmt" "yaml" (absPathify w home) := hf
    have hfne2 : f ≠ joinPath (absPathify w home) ".cmt.yaml" := hfne
    show (if w.locate f = w.locate (joinPath home ".cmt.yaml") then
        some (FileData.settings (some "llama3.1")) else w.files f) = none
    rw [candidates_located w home f hf2, hloc, if_neg hfne2]
    exact hn f hf2
  · show (if w.locate (joinPath (absPathify w home) ".cmt.yaml") =
        w.locate (joinPath home ".cmt.yaml") then
        some (FileData.settings (some "llama3.1"))
        else w.files (joinPath (absPathify w home) ".cmt.yaml")) = _
    rw [locate_absPathify w home ".cmt.yaml" plain_names.2.2, hloc, if_pos rfl]

/-- The two runs at the sample world whose home directory is `vh/` below the
working directory `/tmp`: the first run creates `vh/.cmt.yaml`, and the second
finds it as `/tmp/vh/.cmt.yaml` and does nothing. -/
theorem initConfig_relative_home :
    (initConfig "" (State.start worldRelativeHome)).1.trace =
        [Event.call "createDefaultConfig" [], Event.writeFile "vh/.cmt.yaml",
         Event.stdout "Created default config file: vh/.cmt.yaml\n"] ∧
      (initConfig "" (State.start worldRelativeHome)).1.world.files "/tmp/vh/.cmt.yaml" =
        some (FileData.settings (some "llama3.1")) ∧
      (initConfig "" (State.start
        (initConfig "" (State.start worldRelativeHome)).1.world)).1.viper.configFile =
        "/tmp/vh/.cmt.yaml" ∧
      (initConfig "" (State.start
        (initConfig "" (State.start worldRelativeHome)).1.world)).1.trace = [] := by
  decide

/-- The parsing at sample arguments: switches with a value, grouped shorthands,
the errors of pflag, positional arguments, and the hidden completion command. -/
theorem parseArgs_samples :
    parseArgs ["--version=false"] "" "" false false = Parsed.flags "" "" false false ∧
      parseArgs ["--help=false", "-v"] "" "" false false = Parsed.flags "" "" false true ∧
      parseArgs ["-vh"] "" "" false false = Parsed.flags "" "" true true ∧
      parseArgs ["-h=false"] "" "" false false = Parsed.flags "" "" false false ∧
      parseArgs ["--model=phi", "--config", "c.yaml"] "" "" false false =
        Parsed.flags "c.yaml" "phi" false false ∧
      parseArgs ["notes", "--model", "phi", "-"] "" "" false false =
        Parsed.flags "" "phi" false false ∧
      parseArgs ["--", "--model"] "" "" false false = Parsed.flags "" "" false false ∧
      parseArgs ["--name=value"] "" "" false false = Parsed.error "unknown flag: --name" ∧
      parseArgs ["--config"] "" "" false false =
        Parsed.error "flag needs an argument: --config" ∧
      parseArgs ["--=x"] "" "" false false = Parsed.error "bad flag syntax: --=x" ∧
      parseArgs ["-vx"] "" "" false false =
        Parsed.error "unknown shorthand flag: \x27x\x27 in -x" ∧
      parseArgs ["--help=abc"] "" "" false false =
        Parsed.error ("invalid argument \"abc\" for \"-h, --help\" flag: " ++
          "strconv.ParseBool: parsing \"abc\": invalid syntax") ∧
      parseArgs ["__complete", "x"] "" "" false false = Parsed.complete ["x"] ∧
      parseArgs ["--model", "phi", "__complete", "x"] "" "" false false =
        Parsed.complete ["--model", "phi", "x"] ∧
      parseArgs ["--model", "__complete"] "" "" false false =
        Parsed.flags "" "__complete" false false := by
  decide

theorem Execute_no_args (env : Env) (getModel : String) :
    Execute env getModel [] "" "" = RunCommit env getModel := rfl

theorem Execute_model_flag (env : Env) (getModel v : String) :
    Execute env getModel ["--model", v] "" "" = RunCommit env getModel := rfl

theorem Execute_config_flag (env : Env) (getModel p : String) :
    Execute env getModel ["--config", p] "" "" = RunCommit env getModel := rfl

/-! ## The commit flow and the completion -/

/-- C1: when the model runner is found, the repository probe succeeds and
`git diff --cached` exits zero with empty output, `RunCommit` returns the error
"no staged changes found. Please stage your changes using 'git add' first"; the
run consists of the look-up and the two git invocations only, so the model
runner is not invoked, `GenerateCommitMessage` is not called and the spinner is
not started. -/
theorem RunCommit_no_staged_changes (env : Env) (getModel : String)
    (hl : env.lookPathOllama = none) (hr : env.gitRevParse = none)
    (hd : env.gitDiffCached = Except.ok "") :
    (RunCommit env getModel).1 =
        some "no staged changes found. Please stage your changes using 'git add' first" ∧
      (RunCommit env getModel).2 =
        [Event.lookPath "ollama", Event.exec "git" ["rev-parse", "--is-inside-work-tree"],
         Event.exec "git" ["diff", "--cached"]] ∧
      ∀ e ∈ (RunCommit env getModel).2,
        e.isOllamaRun = false ∧ e.isCall "ollama.GenerateCommitMessage" = false ∧
          e.isSpinnerStart = false := by
  have hrun : RunCommit env getModel =
      (some "no staged changes found. Please stage your changes using 'git add' first",
       [Event.lookPath "ollama", Event.exec "git" ["rev-parse", "--is-inside-work-tree"],
        Event.exec "git" ["diff", "--cached"]]) := by
    simp [RunCommit, CheckInstallation, CheckRepo, GetStagedDiff, hl, hr, hd, no_staged_text]
  rw [hrun]
  refine ⟨rfl, rfl, ?_⟩
  intro e he
  simp only [List.mem_cons, List.mem_singleton, List.not_mem_nil, or_false] at he
  rcases he with rfl | rfl | rfl <;> decide

/-- C1 at the sample environment with nothing staged. -/
theorem RunCommit_no_staged_changes_witness :
    (RunCommit envNothingStaged "").1 =
        some "no staged changes found. Please stage your changes using 'git add' first" ∧
      (RunCommit envNothingStaged "").2 =
        [Event.lookPath "ollama", Event.exec "git" ["rev-parse", "--is-inside-work-tree"],
         Event.exec "git" ["diff", "--cached"]] ∧
      ∀ e ∈ (RunCommit envNothingStaged "").2,
        e.isOllamaRun = false ∧ e.isCall "ollama.GenerateCommitMessage" = false ∧
          e.isSpinnerStart = false :=
  RunCommit_no_staged_changes envNothingStaged "" rfl rfl rfl

/-- C2: when the model-runner subprocess exits zero with output `out`,
`GenerateCommitMessage` returns `strings.TrimSpace(out)` and the nil error; that
text is `out` without a leading run `l` and a trailing run `r` of white space,
its characters kept in order, and it neither starts nor ends with white
space. -/
theorem GenerateCommitMessage_trimmed_output (env : Env) (diff model out : String)
    (h : env.ollamaRun model (buildPrompt diff) = Except.ok out) :
    (GenerateCommitMessage env diff model).1 = (TrimSpace out, none) ∧
      ∃ l r : List Char, out.data = l ++ (TrimSpace out).data ++ r ∧
        (∀ c ∈ l, isSpace c = true) ∧ (∀ c ∈ r, isSpace c = true) ∧
        (∀ c, (TrimSpace out).data.head? = some c → isSpace c = false) ∧
        (∀ c, (TrimSpace out).data.getLast? = some c → isSpace c = false) := by
  refine ⟨?_, trimSpace_split out⟩
  simp [GenerateCommitMessage, h]

/-- C2 at the sample environment whose runner pads its answer. -/
theorem GenerateCommitMessage_trimmed_output_witness :
    (GenerateCommitMessage envAnswering "+new line\n" "llama3.1").1 =
        (TrimSpace "\n  git commit -m \"feat: x\" \n", none) ∧
      ∃ l r : List Char,
        ("\n  git commit -m \"feat: x\" \n" : String).data =
          l ++ (TrimSpace "\n  git commit -m \"feat: x\" \n").data ++ r ∧
        (∀ c ∈ l, isSpace c = true) ∧ (∀ c ∈ r, isSpace c = true) ∧
        (∀ c, (TrimSpace "\n  git commit -m \"feat: x\" \n").data.head? = some c →
          isSpace c = false) ∧
        (∀ c, (TrimSpace "\n  git commit -m \"feat: x\" \n").data.getLast? = some c →
          isSpace c = false) :=
  GenerateCommitMessage_trimmed_output envAnswering "+new line\n" "llama3.1" _ rfl

/-- C8: `GenerateCommitMessage` invokes the model runner exactly once, as
`ollama run <model> <prompt>`, whatever the outcome; it returns an error exactly
when that invocation fails, and then the text is empty and the error is
"failed to generate commit message: " followed by the error of the
invocation. -/
theorem GenerateCommitMessage_single_invocation (env : Env) (diff model : String) :
    (GenerateCommitMessage env diff model).2 =
        [Event.exec "ollama" ["run", model, buildPrompt diff]] ∧
      (((GenerateCommitMessage env diff model).1.2 ≠ none) ↔
        ∃ err, env.ollamaRun model (buildPrompt diff) = Except.error err) ∧
      ∀ err, env.ollamaRun model (buildPrompt diff) = Except.error err →
        (GenerateCommitMessage env diff model).1 =
          ("", some ("failed to generate commit message: " ++ err)) := by
  cases h : env.ollamaRun model (buildPrompt diff) with
  | error err => simp [GenerateCommitMessage, h, generate_error_text]
  | ok out => simp [GenerateCommitMessage, h]

/-- C9 fails on the code: `GenerateCommitMessage` hands the model identifier
to the runner without looking at it.  With the empty identifier it returns an
error exactly when the invocation `ollama run "" <prompt>` fails; with a runner
that exits zero for that invocation it returns the trimmed output and the nil
error, where the claim and the test "should handle empty model name" ask for
an error. -/
theorem GenerateCommitMessage_empty_model_unchecked :
    (∀ (env : Env) (diff : String),
        ((((GenerateCommitMessage env diff "").1.2 ≠ none) ↔
            ∃ err, env.ollamaRun "" (buildPrompt diff) = Except.error err) ∧
          ∀ out, env.ollamaRun "" (buildPrompt diff) = Except.ok out →
            (GenerateCommitMessage env diff "").1 = (TrimSpace out, none))) ∧
      (GenerateCommitMessage envAnswering "+new line\n" "").1 =
        ("git commit -m \"feat: x\"", none) := by
  refine ⟨?_, by decide⟩
  intro env diff
  cases h : env.ollamaRun "" (buildPrompt diff) with
  | error err => simp [GenerateCommitMessage, h]
  | ok out => simp [GenerateCommitMessage, h]

/-- C10 fails on the code: when the runner exits zero having printed only white
space, `GenerateCommitMessage` returns the empty message with the nil error. -/
theorem GenerateCommitMessage_blank_output :
    (GenerateCommitMessage envBlank "+new line\n" "llama3.1").1 = ("", none) := by
  decide

/-! ## Settings resolution and the command line -/

/-- C4 fails on the code: `main` calls `InitConfig` with the flag variables
before `Execute` parses the arguments, so the value of `--model` reaches neither
the settings initialisation nor the completion.  Whatever `InitConfig` and
`GetModel` do, the run with `--model v` is the run with `--model v2` and the run
without the flag; with the settings initialisation of config.go in their place,
`--model mistral` runs the completion with the model of the settings file. -/
theorem main_model_flag_ignored (InitConfig : String → String → State → State × Option Nat)
    (GetModel : State → String) (env : Env) (w : World) (v v2 : String) :
    main InitConfig GetModel env ["--model", v] w = main InitConfig GetModel env [] w ∧
      main InitConfig GetModel env ["--model", v] w =
        main InitConfig GetModel env ["--model", v2] w ∧
      completionModel (main (fun cfgFile _ s => initConfig cfgFile s)
        (fun s => s.viper.GetString) envAnswering ["--model", "mistral"] worldTwoFiles).1.trace =
        some "llama3.1" := by
  refine ⟨?_, ?_, by decide⟩ <;> simp only [main, Execute_model_flag, Execute_no_args]

/-- C5, as the code has it: in a world whose home directory resolves, where the
search of the home directory finds no settings file and no path is given.
When `<home>/.cmt.yaml` can be written, `initConfig` returns with the model
"llama3.1", all it does is call `createDefaultConfig`, write the file and print
"Created default config file: " and the path, and it leaves `<home>/.cmt.yaml`
with `model` "llama3.1" and every other file as it was; when moreover expanding
variable references leaves the home directory as it is, as it does every path
without `$`, `initConfig` run again in the world it leaves returns with the
same model, does and prints nothing, and leaves the world as it is.  When the
file cannot be written, failing with `e`, `initConfig` ends the process with
exit code 1 after writing "Error creating config file: " and `e` to the error
stream, and leaves the world as it was. -/
theorem initConfig_default_then_idempotent (w : World) (home : String)
    (hh : UserHomeDir w = Except.ok home)
    (hn : ∀ f ∈ candidates ".cmt" "yaml" (absPathify w home), w.files f = none) :
    (w.writeError (joinPath home ".cmt.yaml") = none →
        (initConfig "" (State.start w)).2 = none ∧
        (initConfig "" (State.start w)).1.viper.GetString = "llama3.1" ∧
        (initConfig "" (State.start w)).1.trace =
          [Event.call "createDefaultConfig" [], Event.writeFile (joinPath home ".cmt.yaml"),
           Event.stdout ("Created default config file: " ++ joinPath home ".cmt.yaml" ++
             "\n")] ∧
        (initConfig "" (State.start w)).1.world.files (joinPath home ".cmt.yaml") =
          some (FileData.settings (some "llama3.1")) ∧
        (∀ f, w.locate f ≠ w.locate (joinPath home ".cmt.yaml") →
          (initConfig "" (State.start w)).1.world.files f = w.files f) ∧
        (('$' ∈ home.data → w.expandEnv home = home) →
          (initConfig "" (State.start (initConfig "" (State.start w)).1.world)).2 = none ∧
          (initConfig "" (State.start
            (initConfig "" (State.start w)).1.world)).1.viper.GetString = "llama3.1" ∧
          (initConfig "" (State.start (initConfig "" (State.start w)).1.world)).1.trace = [] ∧
          (initConfig "" (State.start (initConfig "" (State.start w)).1.world)).1.world =
            (initConfig "" (State.start w)).1.world)) ∧
      ∀ e, w.writeError (joinPath home ".cmt.yaml") = some e →
        (initConfig "" (State.start w)).2 = some 1 ∧
        (initConfig "" (State.start w)).1.trace =
          [Event.call "createDefaultConfig" [], Event.writeFile (joinPath home ".cmt.yaml"),
           Event.stderr ("Error creating config file: " ++ e ++ "\n")] ∧
        (initConfig "" (State.start w)).1.world = w := by
  refine ⟨?_, ?_⟩
  · intro hw
    have h1 := initConfig_first_run w home hh hn hw
    refine ⟨by rw [h1], by rw [h1]; rfl, by rw [h1], by rw [h1]; simp, ?_, ?_⟩
    · intro f hf
      rw [h1]
      simp [hf]
    · intro hx
      have h2 := initConfig_rerun w home hh hn hw hx
      rw [h2]
      exact ⟨rfl, rfl, rfl, rfl⟩
  · intro e hw
    rw [initConfig_write_fails w home e hh hn hw]
    exact ⟨rfl, rfl, rfl⟩

/-- C5 at the sample world with no settings file, where the file is created and
the second run does nothing, and at the sample world where files cannot be
created. -/
theorem initConfig_default_then_idempotent_witness :
    (UserHomeDir worldFresh = Except.ok "/home/u" ∧
      (∀ f ∈ candidates ".cmt" "yaml" (absPathify worldFresh "/home/u"),
        worldFresh.files f = none) ∧
      worldFresh.writeError (joinPath "/home/u" ".cmt.yaml") = none ∧
      ('$' ∈ ("/home/u" : String).data → worldFresh.expandEnv "/home/u" = "/home/u") ∧
      (initConfig "" (State.start worldFresh)).2 = none ∧
      (initConfig "" (State.start worldFresh)).1.viper.GetString = "llama3.1" ∧
      (initConfig "" (State.start worldFresh)).1.trace =
        [Event.call "createDefaultConfig" [],
         Event.writeFile (joinPath "/home/u" ".cmt.yaml"),
         Event.stdout ("Created default config file: " ++ joinPath "/home/u" ".cmt.yaml" ++
           "\n")] ∧
      (initConfig "" (State.start worldFresh)).1.world.files
          (joinPath "/home/u" ".cmt.yaml") =
        some (FileData.settings (some "llama3.1")) ∧
      (∀ f, worldFresh.locate f ≠ worldFresh.locate (joinPath "/home/u" ".cmt.yaml") →
        (initConfig "" (State.start worldFresh)).1.world.files f = worldFresh.files f) ∧
      (initConfig "" (State.start (initConfig "" (State.start worldFresh)).1.world)).2 =
        none ∧
      (initConfig "" (State.start
        (initConfig "" (State.start worldFresh)).1.world)).1.viper.GetString = "llama3.1" ∧
      (initConfig "" (State.start
        (initConfig "" (State.start worldFresh)).1.world)).1.trace = [] ∧
      (initConfig "" (State.start
        (initConfig "" (State.start worldFresh)).1.world)).1.world =
        (initConfig "" (State.start worldFresh)).1.world) ∧
    (UserHomeDir worldReadOnly = Except.ok "/home/u" ∧
      (∀ f ∈ candidates ".cmt" "yaml" (absPathify worldReadOnly "/home/u"),
        worldReadOnly.files f = none) ∧
      worldReadOnly.writeError (joinPath "/home/u" ".cmt.yaml") =
        some "open /home/u/.cmt.yaml: permission denied" ∧
      (initConfig "" (State.start worldReadOnly)).2 = some 1 ∧
      (initConfig "" (State.start worldReadOnly)).1.trace =
        [Event.call "createDefaultConfig" [],
         Event.writeFile (joinPath "/home/u" ".cmt.yaml"),
         Event.stderr ("Error creating config file: " ++
           "open /home/u/.cmt.yaml: permission denied" ++ "\n")] ∧
      (initConfig "" (State.start worldReadOnly)).1.world = worldReadOnly) :=
  have fresh := (initConfig_default_then_idempotent worldFresh "/home/u" rfl
    (fun _ _ => rfl)).1 rfl
  have again := fresh.2.2.2.2.2 (fun h => absurd h (by decide))
  have failed := (initConfig_default_then_idempotent worldReadOnly "/home/u" rfl
    (fun _ _ => rfl)).2 "open /home/u/.cmt.yaml: permission denied" (by decide)
  ⟨⟨rfl, fun _ _ => rfl, rfl, fun h => absurd h (by decide), fresh.1, fresh.2.1, fresh.2.2.1,
      fresh.2.2.2.1, fresh.2.2.2.2.1, again.1, again.2.1, again.2.2.1, again.2.2.2⟩,
    ⟨rfl, fun _ _ => rfl, by decide, failed.1, failed.2.1, failed.2.2⟩⟩

/-- C5 fails as stated, in two ways.  In a world with no settings file where the
file cannot be created, `initConfig` reports "Error creating config file", ends
the process with exit code 1 and leaves no settings file.  In a world with no
settings file whose home directory holds a reference to a variable, the search
looks in the directory with the reference expanded while the file is created
under the home directory as it stands: the second run finds no settings file
either, and creates the file and prints the line again. -/
theorem initConfig_write_failure_counterexample :
    resolvedFile "" worldReadOnly = none ∧
      (initConfig "" (State.start worldReadOnly)).2 = some 1 ∧
      (initConfig "" (State.start worldReadOnly)).1.trace =
        [Event.call "createDefaultConfig" [], Event.writeFile "/home/u/.cmt.yaml",
         Event.stderr
           "Error creating config file: open /home/u/.cmt.yaml: permission denied\n"] ∧
      (initConfig "" (State.start worldReadOnly)).1.world.files "/home/u/.cmt.yaml" = none ∧
      resolvedFile "" worldDollarHome = none ∧
      (initConfig "" (State.start worldDollarHome)).2 = none ∧
      (initConfig "" (State.start worldDollarHome)).1.viper.configPaths = ["/tmp/a"] ∧
      (initConfig "" (State.start worldDollarHome)).1.trace =
        [Event.call "createDefaultConfig" [], Event.writeFile "/tmp/a$b/.cmt.yaml",
         Event.stdout "Created default config file: /tmp/a$b/.cmt.yaml\n"] ∧
      (initConfig "" (State.start
        (initConfig "" (State.start worldDollarHome)).1.world)).1.trace =
        [Event.call "createDefaultConfig" [], Event.writeFile "/tmp/a$b/.cmt.yaml",
         Event.stdout "Created default config file: /tmp/a$b/.cmt.yaml\n"] := by
  decide

/-- C6: when the settings file `initConfig` resolves exists but reading or
decoding it fails with `err`, `initConfig` ends the process with exit code 1;
all it does is write "Error reading config file: " and `err` to the error
stream, so `createDefaultConfig` is not called and no file is written, and the
world is left as it was. -/
theorem initConfig_unreadable_fatal (cfgFile : String) (w : World) (file err : String)
    (hres : resolvedFile cfgFile w = some file)
    (hf : w.files file = some (FileData.unreadable err)) :
    (initConfig cfgFile (State.start w)).2 = some 1 ∧
      (initConfig cfgFile (State.start w)).1.trace =
        [Event.stderr ("Error reading config file: " ++ err ++ "\n")] ∧
      (∀ e ∈ (initConfig cfgFile (State.start w)).1.trace,
        e.isCall "createDefaultConfig" = false ∧ e.isWrite = false) ∧
      (initConfig cfgFile (State.start w)).1.world = w := by
  have key := initConfig_unreadable_aux cfgFile w file err hres hf
  refine ⟨key.1, key.2.1, ?_, key.2.2⟩
  rw [key.2.1]
  intro e he
  rw [List.mem_singleton] at he
  subst he
  exact ⟨rfl, rfl⟩

/-- C6 at the sample world whose home-directory settings file does not
decode. -/
theorem initConfig_unreadable_fatal_witness :
    (initConfig "" (State.start worldMalformed)).2 = some 1 ∧
      (initConfig "" (State.start worldMalformed)).1.trace =
        [Event.stderr ("Error reading config file: " ++
          "While parsing config: yaml: did not find expected node content" ++ "\n")] ∧
      (∀ e ∈ (initConfig "" (State.start worldMalformed)).1.trace,
        e.isCall "createDefaultConfig" = false ∧ e.isWrite = false) ∧
      (initConfig "" (State.start worldMalformed)).1.world = worldMalformed :=
  initConfig_unreadable_fatal "" worldMalformed "/home/u/.cmt.yaml" _ (by decide) (by decide)

/-- C7 fails on the code: `main` calls `InitConfig` with the flag variables
before `Execute` parses the arguments, so the path of `--config` never reaches
the settings initialisation.  Whatever `InitConfig` and `GetModel` do, the run
with `--config p` is the run with `--config p2` and the run without the flag;
with the settings initialisation of config.go in their place, `--config
/tmp/alt.yaml` runs the completion with the model of the home-directory file,
although `initConfig` given that path resolves the model stored in it. -/
theorem main_config_flag_ignored (InitConfig : String → String → State → State × Option Nat)
    (GetModel : State → String) (env : Env) (w : World) (p p2 : String) :
    main InitConfig GetModel env ["--config", p] w = main InitConfig GetModel env [] w ∧
      main InitConfig GetModel env ["--config", p] w =
        main InitConfig GetModel env ["--config", p2] w ∧
      completionModel (main (fun cfgFile _ s => initConfig cfgFile s)
        (fun s => s.viper.GetString) envAnswering ["--config", "/tmp/alt.yaml"]
          worldTwoFiles).1.trace = some "llama3.1" ∧
      (initConfig "/tmp/alt.yaml" (State.start worldTwoFiles)).1.viper.GetString = "mistral" := by
  refine ⟨?_, ?_, by decide, by decide⟩ <;>
    simp only [main, Execute_config_flag, Execute_no_args]

/-! ## The prompt, the order of the gates and the spinner calls -/

theorem not_installed_text :
    Sprintf "ollama is not installed. Please install Ollama" [] =
      "ollama is not installed. Please install Ollama" :=
  Sprintf_plain _ (by decide)

theorem not_repo_text :
    Sprintf "this is not a Git repository. Please run this command inside a Git repository" [] =
      "this is not a Git repository. Please run this command inside a Git repository" :=
  Sprintf_plain _ (by decide)

theorem diff_error_text (e : String) :
    Sprintf "failed to get staged diff: %v" [e] = "failed to get staged diff: " ++ e := by
  have h := Sprintf_one_v "failed to get staged diff: " "" e (by decide) (by decide)
  simpa using h

/-- The six ways a run of `RunCommit` can go, by the first gate that fails. -/
theorem RunCommit_cases (env : Env) (getModel : String) :
    (∃ e, env.lookPathOllama = some e ∧
        RunCommit env getModel =
          (some "ollama is not installed. Please install Ollama", gateEvents.take 1)) ∨
      (env.lookPathOllama = none ∧ ∃ e, env.gitRevParse = some e ∧
        RunCommit env getModel =
          (some "this is not a Git repository. Please run this command inside a Git repository",
           gateEvents.take 2)) ∨
      (env.lookPathOllama = none ∧ env.gitRevParse = none ∧
        ∃ e, env.gitDiffCached = Except.error e ∧
          RunCommit env getModel = (some ("failed to get staged diff: " ++ e), gateEvents)) ∨
      (env.lookPathOllama = none ∧ env.gitRevParse = none ∧
        env.gitDiffCached = Except.ok "" ∧
          RunCommit env getModel =
            (some "no staged changes found. Please stage your changes using 'git add' first",
             gateEvents)) ∨
      (env.lookPathOllama = none ∧ env.gitRevParse = none ∧
        ∃ d, env.gitDiffCached = Except.ok d ∧ d ≠ "" ∧
          ∃ e, env.ollamaRun (usedModel getModel) (buildPrompt d) = Except.error e ∧
            RunCommit env getModel =
              (some ("failed to generate commit message: " ++ e),
               gateEvents ++ completionEvents (usedModel getModel) d)) ∨
      (env.lookPathOllama = none ∧ env.gitRevParse = none ∧
        ∃ d, env.gitDiffCached = Except.ok d ∧ d ≠ "" ∧
          ∃ out, env.ollamaRun (usedModel getModel) (buildPrompt d) = Except.ok out ∧
            RunCommit env getModel =
              (none, gateEvents ++ completionEvents (usedModel getModel) d ++
                [Event.stdout "\nGenerated commit message:\n",
                 Event.stdout (TrimSpace out ++ "\n")])) := by
  cases hl : env.lookPathOllama with
  | some e =>
    left
    exact ⟨e, rfl, by simp [RunCommit, CheckInstallation, hl, not_installed_text, gateEvents]⟩
  | none =>
    right
    cases hr : env.gitRevParse with
    | some e =>
      left
      exact ⟨rfl, e, rfl, by
        simp [RunCommit, CheckInstallation, CheckRepo, hl, hr, not_repo_text, gateEvents]⟩
    | none =>
      right
      cases hd : env.gitDiffCached with
      | error e =>
        left
        exact ⟨rfl, rfl, e, rfl, by
          simp [RunCommit, CheckInstallation, CheckRepo, GetStagedDiff, hl, hr, hd,
            diff_error_text, gateEvents]⟩
      | ok d =>
        right
        by_cases hne : d = ""
        · left
          subst hne
          exact ⟨rfl, rfl, rfl, by
            simp [RunCommit, CheckInstallation, CheckRepo, GetStagedDiff, hl, hr, hd,
              no_staged_text, gateEvents]⟩
        · right
          cases ho : env.ollamaRun (usedModel getModel) (buildPrompt d) with
          | error e =>
            left
            refine ⟨rfl, rfl, d, rfl, hne, e, ho, ?_⟩
            unfold usedModel at ho
            simp [RunCommit, CheckInstallation, CheckRepo, GetStagedDiff, hl, hr, hd, hne,
              GenerateCommitMessage, ho, generate_error_text, gateEvents, completionEvents,
              usedModel]
          | ok out =>
            right
            refine ⟨rfl, rfl, d, rfl, hne, out, ho, ?_⟩
            unfold usedModel at ho
            simp [RunCommit, CheckInstallation, CheckRepo, GetStagedDiff, hl, hr, hd, hne,
              GenerateCommitMessage, ho, gateEvents, completionEvents, usedModel, Println]

theorem runner_invoked_once (env : Env) (diff model : String) :
    (GenerateCommitMessage env diff model).2 =
      [Event.exec "ollama" ["run", model, buildPrompt diff]] := by
  cases h : env.ollamaRun model (buildPrompt diff) <;> simp [GenerateCommitMessage, h]

set_option maxRecDepth 100000 in
theorem promptText_plain : '%' ∉ promptText.data := by decide

theorem buildPrompt_eq (d : String) : buildPrompt d = promptText ++ d := by
  have h := Sprintf_one_s promptText "" d promptText_plain (by decide)
  simpa [buildPrompt, promptFormat] using h

/-- C11: the prompt is the fixed instructions followed by the diff as it is,
for every diff: the diff is a suffix of the prompt, the length of the prompt (in
code points and in bytes) is that of the instructions plus that of the diff,
the instructions hold no verb, and whatever the environment and the model
argument, the prompt handed to the runner for the diff `d` is
`promptText ++ d`. -/
theorem buildPrompt_template (d : String) :
    buildPrompt d = promptText ++ d ∧
      d.data <:+ (buildPrompt d).data ∧
      (buildPrompt d).length = promptText.length + d.length ∧
      (buildPrompt d).utf8ByteSize = promptText.utf8ByteSize + d.utf8ByteSize ∧
      ∀ (env : Env) (model : String),
        (GenerateCommitMessage env d model).2 =
          [Event.exec "ollama" ["run", model, promptText ++ d]] := by
  have h := buildPrompt_eq d
  refine ⟨h, ?_, ?_, ?_, ?_⟩
  · rw [h]
    exact ⟨promptText.data, by simp⟩
  · rw [h, String.length_append]
  · rw [h]
    have hd : (String.append promptText d).data = promptText.data ++ d.data :=
      String.data_append _ _
    simp only [String.utf8ByteSize, String.utf8ByteSize.go_eq]
    rw [hd, String.utf8Len_append]
  · intro env model
    rw [← h]
    exact (runner_invoked_once env d model)

theorem usedModel_ne_empty (getModel : String) : usedModel getModel ≠ "" := by
  unfold usedModel
  split
  · decide
  · assumption

/-- C12: `RunCommit` runs its gates in the order runner present, inside a
repository, diff extraction, diff not empty, completion, and returns the error
of the first that fails after the events up to that gate only: a missing runner
gives "ollama is not installed. Please install Ollama" with no git invocation,
a failed probe gives "this is not a Git repository. ..." with no
`git diff --cached`; it returns nil exactly when every gate passed. -/
theorem RunCommit_gate_order (env : Env) (getModel : String) :
    (∀ e, env.lookPathOllama = some e →
        RunCommit env getModel =
          (some "ollama is not installed. Please install Ollama",
           [Event.lookPath "ollama"])) ∧
      (env.lookPathOllama = none → ∀ e, env.gitRevParse = some e →
        RunCommit env getModel =
          (some "this is not a Git repository. Please run this command inside a Git repository",
           [Event.lookPath "ollama", Event.exec "git" ["rev-parse", "--is-inside-work-tree"]])) ∧
      (env.lookPathOllama = none → env.gitRevParse = none →
        ∀ e, env.gitDiffCached = Except.error e →
          RunCommit env getModel = (some ("failed to get staged diff: " ++ e), gateEvents)) ∧
      (env.lookPathOllama = none → env.gitRevParse = none →
        env.gitDiffCached = Except.ok "" →
          RunCommit env getModel =
            (some "no staged changes found. Please stage your changes using 'git add' first",
             gateEvents)) ∧
      (env.lookPathOllama = none → env.gitRevParse = none →
        ∀ d, env.gitDiffCached = Except.ok d → d ≠ "" →
          ∀ e, env.ollamaRun (usedModel getModel) (buildPrompt d) = Except.error e →
            RunCommit env getModel =
              (some ("failed to generate commit message: " ++ e),
               gateEvents ++ completionEvents (usedModel getModel) d)) ∧
      ((RunCommit env getModel).1 = none ↔
        env.lookPathOllama = none ∧ env.gitRevParse = none ∧
          ∃ d, env.gitDiffCached = Except.ok d ∧ d ≠ "" ∧
            ∃ out, env.ollamaRun (usedModel getModel) (buildPrompt d) = Except.ok out) := by
  rcases RunCommit_cases env getModel with ⟨e, h1, h⟩ | ⟨h1, e, h2, h⟩ | ⟨h1, h2, e, h3, h⟩ |
    ⟨h1, h2, h3, h⟩ | ⟨h1, h2, d, h3, hne, e, h4, h⟩ | ⟨h1, h2, d, h3, hne, out, h4, h⟩
  · simp [h, h1, gateEvents]
  · simp [h, h1, h2, gateEvents]
  · simp [h, h1, h2, h3]
  · simp [h, h1, h2, h3]
  · simp [h, h1, h2, h3, hne, h4]
  · simp [h, h1, h2, h3, hne, h4]

/-- C13: the model identifier `RunCommit` uses is the configured one when that
is not empty and "llama3.1" otherwise, so it is never empty; every spinner
start in the run carries it as label, every invocation of the runner and every
call of `GenerateCommitMessage` carries it as model. -/
theorem RunCommit_model_never_empty (env : Env) (getModel : String) :
    usedModel getModel ≠ "" ∧
      (getModel ≠ "" → usedModel getModel = getModel) ∧
      (getModel = "" → usedModel getModel = "llama3.1") ∧
      (∀ label, Event.spinnerStart label ∈ (RunCommit env getModel).2 →
        label = usedModel getModel) ∧
      (∀ args, Event.exec "ollama" args ∈ (RunCommit env getModel).2 →
        ∃ prompt, args = ["run", usedModel getModel, prompt]) ∧
      (∀ d model, Event.call "ollama.GenerateCommitMessage" [d, model] ∈
          (RunCommit env getModel).2 → model = usedModel getModel) := by
  refine ⟨usedModel_ne_empty getModel, fun h => by simp [usedModel, h],
    fun h => by simp [usedModel, h], ?_, ?_, ?_⟩
  all_goals
    rcases RunCommit_cases env getModel with ⟨e, h1, h⟩ | ⟨h1, e, h2, h⟩ | ⟨h1, h2, e, h3, h⟩ |
      ⟨h1, h2, h3, h⟩ | ⟨h1, h2, d, h3, hne, e, h4, h⟩ | ⟨h1, h2, d, h3, hne, out, h4, h⟩ <;>
    simp [h, gateEvents, completionEvents]

/-- C19: in every run of `RunCommit` the spinner is started at most once and
stopped as often as it is started.  If a gate up to the non-empty-diff check
fails, it is neither started nor stopped; if they all pass, the run is the gate
events, then start, the call of `GenerateCommitMessage` with its one
invocation, then stop, and after the stop only the two lines of the result
when the completion succeeded and nothing when it failed. -/
theorem RunCommit_spinner_balanced (env : Env) (getModel : String) :
    (RunCommit env getModel).2.countP Event.isSpinnerStart ≤ 1 ∧
      (RunCommit env getModel).2.countP Event.isSpinnerStop =
        (RunCommit env getModel).2.countP Event.isSpinnerStart ∧
      ((RunCommit env getModel).2.countP Event.isSpinnerStart = 1 ↔
        env.lookPathOllama = none ∧ env.gitRevParse = none ∧
          ∃ d, env.gitDiffCached = Except.ok d ∧ d ≠ "") ∧
      (∀ d, env.lookPathOllama = none → env.gitRevParse = none →
        env.gitDiffCached = Except.ok d → d ≠ "" →
        ∃ rest, (RunCommit env getModel).2 =
            gateEvents ++ completionEvents (usedModel getModel) d ++ rest ∧
          rest.countP Event.isSpinnerStart = 0 ∧ rest.countP Event.isSpinnerStop = 0 ∧
          (((RunCommit env getModel).1 = none ∧ ∃ m, rest = [Println "\nGenerated commit message:",
              Println m]) ∨
            ((RunCommit env getModel).1 ≠ none ∧ rest = []))) := by
  rcases RunCommit_cases env getModel with ⟨e, h1, h⟩ | ⟨h1, e, h2, h⟩ | ⟨h1, h2, e, h3, h⟩ |
    ⟨h1, h2, h3, h⟩ | ⟨h1, h2, d, h3, hne, e, h4, h⟩ | ⟨h1, h2, d, h3, hne, out, h4, h⟩
  · simp [h, h1, gateEvents, Event.isSpinnerStart, Event.isSpinnerStop]
  · simp [h, h1, h2, gateEvents, Event.isSpinnerStart, Event.isSpinnerStop]
  · simp [h, h1, h2, h3, gateEvents, Event.isSpinnerStart, Event.isSpinnerStop]
  · simp [h, h1, h2, h3, gateEvents, Event.isSpinnerStart, Event.isSpinnerStop]
  · simp [h, h1, h2, h3, hne, gateEvents, completionEvents, Event.isSpinnerStart,
      Event.isSpinnerStop, List.countP_cons]
  · simp [h, h1, h2, h3, hne, gateEvents, completionEvents, Event.isSpinnerStart,
      Event.isSpinnerStop, List.countP_cons, Println]
    exact ⟨_, rfl⟩

/-! ## The spinner loop on its own -/

theorem frame_text (glyph label : String) :
    Sprintf "\r🤔 %s Thinking with %s model..." [glyph, label] = frameText glyph label := by
  have hf : ("\r🤔 %s Thinking with %s model..." : String).data =
      ("\r🤔 " : String).data ++ '%' :: 's' ::
        ((" Thinking with " : String).data ++ '%' :: 's' :: (" model..." : String).data) := by
    decide
  apply String.ext
  change sprintfAux ("\r🤔 %s Thinking with %s model..." : String).data [glyph, label] = _
  rw [hf, sprintfAux_verb_s _ _ _ _ (by decide), sprintfAux_verb_s _ _ _ _ (by decide),
    sprintfAux_plain _ _ (by decide)]
  simp [frameText, String.data_append]

theorem glyph_in_range (i : Nat) (h : i < 10) : ∃ glyph, spinnerGlyphs[i]? = some glyph := by
  have : i < spinnerGlyphs.length := by simpa [spinnerGlyphs] using h
  exact ⟨spinnerGlyphs[i], List.getElem?_eq_getElem this⟩

/-- A loop at index `i < 10` that finds no signal `m` times writes the `m`
frames of the indices `i`, `i + 1`, ... modulo 10 and is then at the index
`(i + m) % 10`. -/
theorem run_unsignalled (label : String) (m : Nat) :
    ∀ i, i < 10 →
      (Spinner.run label (LoopState.polling i) (List.replicate m false)).1 =
          LoopState.polling ((i + m) % 10) ∧
        (Spinner.run label (LoopState.polling i) (List.replicate m false)).2.length = m ∧
        ∀ n, n < m → ∃ glyph, spinnerGlyphs[(i + n) % 10]? = some glyph ∧
          (Spinner.run label (LoopState.polling i) (List.replicate m false)).2[n]? =
            some (Write.frame (frameText glyph label)) := by
  induction m with
  | zero =>
    intro i hi
    simp [Spinner.run, Nat.mod_eq_of_lt hi]
  | succ m ih =>
    intro i hi
    obtain ⟨glyph, hg⟩ := glyph_in_range i hi
    have hlt : (i + 1) % 10 < 10 := Nat.mod_lt _ (by decide)
    obtain ⟨h1, h2, h3⟩ := ih ((i + 1) % 10) hlt
    have hlen : spinnerGlyphs.length = 10 := by decide
    have hrun : Spinner.run label (LoopState.polling i) (List.replicate (m + 1) false) =
        ((Spinner.run label (LoopState.polling ((i + 1) % 10)) (List.replicate m false)).1,
         Write.frame (frameText glyph label) ::
          (Spinner.run label (LoopState.polling ((i + 1) % 10)) (List.replicate m false)).2) := by
      simp [List.replicate_succ, Spinner.run, Loop.step, hg, hlen, frame_text]
    rw [hrun]
    refine ⟨?_, ?_, ?_⟩
    · rw [h1]
      congr 1
      omega
    · simp [h2]
    · intro n hn
      cases n with
      | zero => exact ⟨glyph, by simpa [Nat.mod_eq_of_lt hi] using hg, by simp⟩
      | succ n =>
        obtain ⟨g2, hg2, hw⟩ := h3 n (by omega)
        refine ⟨g2, ?_, by simpa using hw⟩
        have : (i + (n + 1)) % 10 = ((i + 1) % 10 + n) % 10 := by omega
        rw [this]
        exact hg2

/-- C14: started at index 0, a loop that has found no signal in its first
`n + 1` passes has written `n + 1` frames, the last of them, the `(n + 1)`-th,
being "\r🤔 ", the glyph of index `n % 10`, " Thinking with ", the label and
" model..."; after `k` frames the index is `k % 10`, which is below the length
10 of the glyph sequence, so the loop never stops on an index out of range. -/
theorem Spinner_run_frames (label : String) (n : Nat) :
    (Spinner.run label (LoopState.polling 0) (List.replicate (n + 1) false)).2.length = n + 1 ∧
      (∃ glyph, spinnerGlyphs[n % 10]? = some glyph ∧
        (Spinner.run label (LoopState.polling 0) (List.replicate (n + 1) false)).2[n]? =
          some (Write.frame ("\r🤔 " ++ glyph ++ " Thinking with " ++ label ++ " model..."))) ∧
      spinnerGlyphs = ["⠋", "⠙", "⠹", "⠸", "⠼", "⠴", "⠦", "⠧", "⠇", "⠏"] ∧
      ∀ k, (Spinner.run label (LoopState.polling 0) (List.replicate k false)).1 =
          LoopState.polling (k % 10) ∧ k % 10 < spinnerGlyphs.length := by
  obtain ⟨_, h2, h3⟩ := run_unsignalled label (n + 1) 0 (by decide)
  refine ⟨h2, ?_, rfl, ?_⟩
  · obtain ⟨glyph, hg, hw⟩ := h3 n (by omega)
    exact ⟨glyph, by simpa using hg, by simpa [frameText] using hw⟩
  · intro k
    obtain ⟨h1, _, _⟩ := run_unsignalled label k 0 (by decide)
    refine ⟨by simpa using h1, ?_⟩
    have hlen : spinnerGlyphs.length = 10 := by decide
    rw [hlen]
    exact Nat.mod_lt _ (by decide)

/-- Running the loop on two lists of findings in a row is running it on the
first and going on from the state reached on the second. -/
theorem run_append (label : String) (o1 o2 : List Bool) :
    ∀ st, Spinner.run label st (o1 ++ o2) =
      ((Spinner.run label (Spinner.run label st o1).1 o2).1,
       (Spinner.run label st o1).2 ++ (Spinner.run label (Spinner.run label st o1).1 o2).2) := by
  induction o1 with
  | nil =>
    intro st
    cases st <;> cases o2 <;> simp [Spinner.run, Loop.step]
  | cons b o1 ih =>
    intro st
    cases st with
    | polling i => simp [Spinner.run, ih, List.append_assoc]
    | clearing => simp [Spinner.run, Loop.step]
    | done => simp [Spinner.run]
    | panicked => simp [Spinner.run]

/-- C15: a loop started at index 0 that finds the stop signal at its
`(k + 1)`-th `select`, after `k` frames, has written those `k` frames and then
the clear, once and last, and has returned, whatever a later `select` would
have found; the text of the clear is carriage return, ESC, `[K`; a loop that
has returned writes nothing more. -/
theorem Spinner_run_stop (label : String) (k : Nat) (rest : List Bool) :
    Spinner.run label (LoopState.polling 0) (List.replicate k false ++ true :: rest) =
        (LoopState.done,
         (Spinner.run label (LoopState.polling 0) (List.replicate k false)).2 ++ [Write.clear]) ∧
      (Spinner.run label (LoopState.polling 0) (List.replicate k false)).2.length = k ∧
      (∀ w ∈ (Spinner.run label (LoopState.polling 0) (List.replicate k false)).2,
        ∃ text, w = Write.frame text) ∧
      Write.clear.text = "\r\x1b[K" ∧
      ∀ (obs : List Bool) (signalled : Bool),
        Spinner.run label LoopState.done obs = (LoopState.done, []) ∧
          Loop.step label signalled LoopState.done = (LoopState.done, []) := by
  obtain ⟨h1, h2, h3⟩ := run_unsignalled label k 0 (by decide)
  refine ⟨?_, h2, ?_, rfl, ?_⟩
  · rw [run_append, h1]
    simp [Spinner.run, Loop.step]
  · intro w hw
    obtain ⟨n, hn, hget⟩ := List.getElem_of_mem hw
    rw [h2] at hn
    obtain ⟨glyph, _, hf⟩ := h3 n hn
    rw [List.getElem?_eq_getElem (by rw [h2]; exact hn)] at hf
    refine ⟨frameText glyph label, ?_⟩
    rw [← hget]
    exact Option.some.inj hf
  · intro obs signalled
    cases obs <;> simp [Spinner.run, Loop.step]

/-! ## The exit code of the process -/

theorem RunCommit_error_silent (env : Env) (getModel : String)
    (h : (RunCommit env getModel).1 ≠ none) : stdoutOf (RunCommit env getModel).2 = "" := by
  rcases RunCommit_cases env getModel with ⟨e, h1, hr⟩ | ⟨h1, e, h2, hr⟩ | ⟨h1, h2, e, h3, hr⟩ |
    ⟨h1, h2, h3, hr⟩ | ⟨h1, h2, d, h3, hne, e, h4, hr⟩ | ⟨h1, h2, d, h3, hne, out, h4, hr⟩
  · rw [hr]; rfl
  · rw [hr]; rfl
  · rw [hr]; rfl
  · rw [hr]; rfl
  · rw [hr]; rfl
  · rw [hr] at h; exact absurd rfl h

theorem Execute_error_silent (env : Env) (getModel : String) (args : List String)
    (cfgFile model e : String) (h : (Execute env getModel args cfgFile model).1 = some e) :
    stdoutOf (Execute env getModel args cfgFile model).2 = "" := by
  unfold Execute at h ⊢
  split
  · rfl
  · rfl
  · rename_i heq
    rw [heq] at h
    simp at h
  · rename_i heq
    rw [heq] at h
    simp at h
  · rename_i heq
    rw [heq] at h
    simp at h
  · rename_i heq
    rw [heq] at h
    simp only at h
    exact RunCommit_error_silent env getModel (by rw [h]; simp)

theorem error_line_text (e : String) : Sprintf "Error: %v\n" [e] = "Error: " ++ e ++ "\n" :=
  Sprintf_one_v "Error: " "\n" e (by decide) (by decide)

theorem createDefaultConfig_exit_code (s s1 : State) (code : Nat)
    (h : createDefaultConfig s = (s1, some code)) : code = 1 := by
  unfold createDefaultConfig at h
  split at h
  · simp at h; exact h.2.symm
  · simp only at h
    split at h
    · simp at h; exact h.2.symm
    · simp at h

theorem initConfig_exit_code (cfgFile : String) (s s1 : State) (code : Nat)
    (h : initConfig cfgFile s = (s1, some code)) : code = 1 := by
  unfold initConfig at h
  simp only at h
  split at h
  · rename_i hloc
    simp only [Prod.mk.injEq, Option.some.injEq] at h
    split at hloc
    · simp at hloc
    · split at hloc
      · simp only [Prod.mk.injEq, Option.some.injEq] at hloc
        omega
      · simp at hloc
  · split at h
    · simp at h
    · exact createDefaultConfig_exit_code _ _ _ h
    · simp at h; exact h.2.symm

/-- C18: when the settings initialisation ends the process only with a
non-zero code, the exit code of the process is 0 exactly when the settings
initialisation returns and the execution of the root command returns no
error.  When that execution returns the error `e`, `main` exits with code 1,
the last thing it does is write "Error: ", `e` and a newline to the error
stream, and the execution has written nothing to standard output.  When the
arguments parse without the help and version switches, the execution of the
root command is `RunCommit`. -/
theorem main_exit_code (InitConfig : String → String → State → State × Option Nat)
    (GetModel : State → String) (env : Env) (args : List String) (w : World)
    (hI : ∀ s s1 code, InitConfig "" "" s = (s1, some code) → code ≠ 0) :
    ((main InitConfig GetModel env args w).2 = 0 ↔
        ∃ s1, InitConfig "" ""
            ((State.start w).emit (Event.call "config.InitConfig" ["", ""])) = (s1, none) ∧
          (Execute env (GetModel s1) args "" "").1 = none) ∧
      (∀ s1 e, InitConfig "" ""
            ((State.start w).emit (Event.call "config.InitConfig" ["", ""])) = (s1, none) →
          (Execute env (GetModel s1) args "" "").1 = some e →
          (main InitConfig GetModel env args w).2 = 1 ∧
            (main InitConfig GetModel env args w).1.trace =
              s1.trace ++ (Execute env (GetModel s1) args "" "").2 ++
                [Event.stderr ("Error: " ++ e ++ "\n")] ∧
            stdoutOf (Execute env (GetModel s1) args "" "").2 = "") ∧
      ∀ getModel cfgFile model,
        parseArgs args "" "" false false = Parsed.flags cfgFile model false false →
          Execute env getModel args "" "" = RunCommit env getModel := by
  refine ⟨?_, ?_, ?_⟩
  · rcases hinit : InitConfig "" ""
        ((State.start w).emit (Event.call "config.InitConfig" ["", ""])) with ⟨s1, code⟩
    cases code with
    | some c =>
      have hc := hI _ _ _ hinit
      simp [main, hinit, hc]
    | none =>
      rcases hex : Execute env (GetModel s1) args "" "" with ⟨err, t⟩
      cases err <;> simp [main, hinit, hex]
  · intro s1 e hinit hex
    rcases hex2 : Execute env (GetModel s1) args "" "" with ⟨err, t⟩
    rw [hex2] at hex
    simp only at hex
    subst hex
    refine ⟨by simp [main, hinit, hex2], by simp [main, hinit, hex2, error_line_text], ?_⟩
    have := Execute_error_silent env (GetModel s1) args "" "" e (by rw [hex2])
    rw [hex2] at this
    exact this
  · intro getModel cfgFile model hp
    simp [Execute, hp]

/-- C18 with the settings initialisation of config.go, in a repository with
nothing staged: `RunCommit` returns its error and the process exits with 1. -/
theorem main_exit_code_witness :
    ((main (fun cfgFile _ s => initConfig cfgFile s) (fun s => s.viper.GetString)
          envNothingStaged [] worldTwoFiles).2 = 0 ↔
        ∃ s1, (fun cfgFile (_ : String) s => initConfig cfgFile s) "" ""
            ((State.start worldTwoFiles).emit (Event.call "config.InitConfig" ["", ""])) =
              (s1, none) ∧
          (Execute envNothingStaged ((fun s => s.viper.GetString) s1) [] "" "").1 = none) ∧
      (∀ s1 e, (fun cfgFile (_ : String) s => initConfig cfgFile s) "" ""
            ((State.start worldTwoFiles).emit (Event.call "config.InitConfig" ["", ""])) =
              (s1, none) →
          (Execute envNothingStaged ((fun s => s.viper.GetString) s1) [] "" "").1 = some e →
          (main (fun cfgFile _ s => initConfig cfgFile s) (fun s => s.viper.GetString)
              envNothingStaged [] worldTwoFiles).2 = 1 ∧
            (main (fun cfgFile _ s => initConfig cfgFile s) (fun s => s.viper.GetString)
              envNothingStaged [] worldTwoFiles).1.trace =
              s1.trace ++ (Execute envNothingStaged ((fun s => s.viper.GetString) s1) [] "" "").2 ++
                [Event.stderr ("Error: " ++ e ++ "\n")] ∧
            stdoutOf (Execute envNothingStaged ((fun s => s.viper.GetString) s1) [] "" "").2 =
              "") ∧
      ∀ getModel cfgFile model,
        parseArgs [] "" "" false false = Parsed.flags cfgFile model false false →
          Execute envNothingStaged getModel [] "" "" = RunCommit envNothingStaged getModel :=
  main_exit_code (fun cfgFile _ s => initConfig cfgFile s) (fun s => s.viper.GetString)
    envNothingStaged [] worldTwoFiles
    (fun s s1 code h => by
      have := initConfig_exit_code "" s s1 code h
      omega)

/-! ## The main goroutine and the spinner loops under every scheduling -/

theorem framesFirst_append_quiet (out : List Out) (x : Out) (h : FramesFirst out)
    (hx : x.isFrame = false) : FramesFirst (out ++ [x]) := by
  obtain ⟨pre, post, rfl, h1, h2⟩ := h
  refine ⟨pre, post ++ [x], by simp, h1, ?_⟩
  intro y hy
  rcases List.mem_append.mp hy with hy | hy
  · exact h2 y hy
  · rw [List.mem_singleton] at hy
    rw [hy]
    exact hx

theorem framesFirst_of_no_caller (out : List Out) (h : ∀ x ∈ out, x.isCaller = false) :
    FramesFirst out :=
  ⟨out, [], by simp, h, by simp⟩

theorem settled_step (label : String) (signalled : Bool) (st : LoopState)
    (h : st.settled = true) :
    (Loop.step label signalled st).1 = LoopState.done ∧
      ∀ w ∈ (Loop.step label signalled st).2, w = Write.clear := by
  cases st <;> simp [LoopState.settled] at h <;> simp [Loop.step]

theorem step_loop (s : Sys) (k : Nat) (lab : String) (st : LoopState)
    (hk : s.loops[k]? = some (lab, st)) :
    s.step (Choice.loop k) =
      { main := if (s.sending && (k + 1 == s.loops.length) && st.isPolling) = true
                then s.main.tail else s.main
        sending := if (s.sending && (k + 1 == s.loops.length) && st.isPolling) = true
                   then false else s.sending
        loops := s.loops.set k
          (lab, (Loop.step lab (s.sending && (k + 1 == s.loops.length)) st).1)
        out := s.out ++
          (Loop.step lab (s.sending && (k + 1 == s.loops.length)) st).2.map (Out.spinner k) } := by
  simp [Sys.step, hk]

theorem Inv_step (label : String) (n : Nat) (s : Sys) (c : Choice) (h : Inv label n s) :
    Inv label n (s.step c) := by
  obtain ⟨hord, hshape⟩ := h
  rcases hshape with ⟨m, texts, hmain, hsend, hset, hout, hn⟩ |
    ⟨m, texts, olds, i, hmain, hloops, hi, hset, hout, hn⟩
  · cases c with
    | main =>
      cases m with
      | zero =>
        cases texts with
        | nil =>
          have : s.step Choice.main = s := by
            simp [cycles] at hmain
            simp [Sys.step, hmain]
          rw [this]
          exact ⟨hord, Or.inl ⟨0, [], hmain, hsend, hset, hout, hn⟩⟩
        | cons t ts =>
          have hm : s.main = MainOp.print t :: List.map MainOp.print ts := by
            simpa [cycles] using hmain
          have : s.step Choice.main =
              { s with main := List.map MainOp.print ts, out := s.out ++ [Out.caller t] } := by
            simp [Sys.step, hm]
          rw [this]
          refine ⟨framesFirst_append_quiet _ _ hord rfl,
            Or.inl ⟨0, ts, by simp [cycles], hsend, hset, Or.inl rfl, hn⟩⟩
      | succ m =>
        have hm : s.main = MainOp.start label :: MainOp.stop ::
            (cycles label m ++ List.map MainOp.print texts) := by
          simpa [cycles] using hmain
        have : s.step Choice.main =
            { s with main := MainOp.stop :: (cycles label m ++ List.map MainOp.print texts),
                     loops := s.loops ++ [(label, LoopState.polling 0)] } := by
          simp [Sys.step, hm]
        rw [this]
        have hnc : ∀ x ∈ s.out, x.isCaller = false := by
          rcases hout with h0 | h0
          · omega
          · exact h0
        exact ⟨hord, Or.inr ⟨m, texts, s.loops, 0, rfl, rfl, by decide, hset, hnc, by omega⟩⟩
    | loop k =>
      cases hk : s.loops[k]? with
      | none =>
        have : s.step (Choice.loop k) = s := by simp [Sys.step, hk]
        rw [this]
        exact ⟨hord, Or.inl ⟨m, texts, hmain, hsend, hset, hout, hn⟩⟩
      | some l =>
        obtain ⟨lab, st⟩ := l
        have hmem : (lab, st) ∈ s.loops := List.getElem?_mem hk
        have hst := hset _ hmem
        obtain ⟨hd, hw⟩ := settled_step lab false st hst
        have : s.step (Choice.loop k) =
            { s with loops := s.loops.set k (lab, LoopState.done),
                     out := s.out ++ (Loop.step lab false st).2.map (Out.spinner k) } := by
          simp [Sys.step, hk, hsend, hd]
        rw [this]
        have hquiet : ∀ x ∈ (Loop.step lab false st).2.map (Out.spinner k),
            x.isFrame = false ∧ x.isCaller = false := by
          intro x hx
          obtain ⟨w, hw1, rfl⟩ := List.mem_map.mp hx
          rw [hw w hw1]
          exact ⟨rfl, rfl⟩
        refine ⟨?_, Or.inl ⟨m, texts, hmain, hsend, ?_, ?_, by simpa using hn⟩⟩
        · obtain ⟨pre, post, hpp, h1, h2⟩ := hord
          refine ⟨pre, post ++ (Loop.step lab false st).2.map (Out.spinner k), ?_, h1, ?_⟩
          · simp only [hpp, List.append_assoc]
          · intro y hy
            rcases List.mem_append.mp hy with hy | hy
            · exact h2 y hy
            · exact (hquiet y hy).1
        · intro l hl
          rcases List.mem_or_eq_of_mem_set hl with hl | hl
          · exact hset l hl
          · rw [hl]; rfl
        · rcases hout with h0 | h0
          · exact Or.inl h0
          · right
            intro x hx
            rcases List.mem_append.mp hx with hx | hx
            · exact h0 x hx
            · exact (hquiet x hx).2
  · cases c with
    | main =>
      have : s.step Choice.main = { s with sending := true } := by
        simp [Sys.step, hmain]
      rw [this]
      exact ⟨hord, Or.inr ⟨m, texts, olds, i, hmain, hloops, hi, hset, hout, hn⟩⟩
    | loop k =>
      have hlen : s.loops.length = olds.length + 1 := by simp [hloops]
      rcases Nat.lt_trichotomy k olds.length with hlt | heq | hgt
      · have hk : s.loops[k]? = some olds[k] := by
          rw [hloops, List.getElem?_append_left hlt, List.getElem?_eq_getElem hlt]
        rcases hl : olds[k] with ⟨lab, st⟩
        rw [hl] at hk
        have hmem : (lab, st) ∈ olds := by
          rw [← hl]
          exact List.getElem_mem hlt
        have hst := hset _ hmem
        obtain ⟨hd, hw⟩ := settled_step lab false st hst
        have hsig : (s.sending && (k + 1 == s.loops.length)) = false := by
          have : (k + 1 == s.loops.length) = false := by
            rw [hlen]
            simp only [beq_eq_false_iff_ne, ne_eq]
            omega
          rw [this, Bool.and_false]
        have : s.step (Choice.loop k) =
            { s with loops := olds.set k (lab, LoopState.done) ++ [(label, LoopState.polling i)],
                     out := s.out ++ (Loop.step lab false st).2.map (Out.spinner k) } := by
          rw [step_loop s k lab st hk, hsig, hd, hloops, List.set_append_left _ _ hlt]
          simp
        rw [this]
        have hquiet : ∀ x ∈ (Loop.step lab false st).2.map (Out.spinner k),
            x.isFrame = false ∧ x.isCaller = false := by
          intro x hx
          obtain ⟨w, hw1, rfl⟩ := List.mem_map.mp hx
          rw [hw w hw1]
          exact ⟨rfl, rfl⟩
        have hout2 : ∀ x ∈ s.out ++ (Loop.step lab false st).2.map (Out.spinner k),
            x.isCaller = false := by
          intro x hx
          rcases List.mem_append.mp hx with hx | hx
          · exact hout x hx
          · exact (hquiet x hx).2
        refine ⟨framesFirst_of_no_caller _ hout2,
          Or.inr ⟨m, texts, olds.set k (lab, LoopState.done), i, hmain, rfl, hi, ?_, hout2,
            by simpa using hn⟩⟩
        intro l hl2
        rcases List.mem_or_eq_of_mem_set hl2 with hl2 | hl2
        · exact hset l hl2
        · rw [hl2]; rfl
      · have hk : s.loops[k]? = some (label, LoopState.polling i) := by
          rw [hloops, heq, List.getElem?_append_right (Nat.le_refl _)]
          simp
        have hset2 : s.loops.set k (label, LoopState.clearing) =
            olds ++ [(label, LoopState.clearing)] := by
          rw [hloops, heq, List.set_append_right _ _ (Nat.le_refl _)]
          simp
        cases hs : s.sending with
        | true =>
          have hsig : (s.sending && (k + 1 == s.loops.length)) = true := by
            rw [hs, hlen, heq]
            simp
          have : s.step (Choice.loop k) =
              { s with main := cycles label m ++ List.map MainOp.print texts, sending := false,
                       loops := olds ++ [(label, LoopState.clearing)] } := by
            rw [step_loop s k _ _ hk, hsig]
            simp [Loop.step, LoopState.isPolling, hmain, hset2]
          rw [this]
          refine ⟨hord, Or.inl ⟨m, texts, rfl, rfl, ?_, Or.inr hout, by simpa using hn⟩⟩
          intro l hl
          rcases List.mem_append.mp hl with hl | hl
          · exact hset l hl
          · rw [List.mem_singleton] at hl
            rw [hl]; rfl
        | false =>
          obtain ⟨glyph, hg⟩ := glyph_in_range i hi
          have hset3 : s.loops.set k (label, LoopState.polling ((i + 1) % 10)) =
              olds ++ [(label, LoopState.polling ((i + 1) % 10))] := by
            rw [hloops, heq, List.set_append_right _ _ (Nat.le_refl _)]
            simp
          have hglen : spinnerGlyphs.length = 10 := by decide
          have : s.step (Choice.loop k) =
              { s with loops := olds ++ [(label, LoopState.polling ((i + 1) % 10))],
                       out := s.out ++ [Out.spinner k (Write.frame
                         (Sprintf "\r🤔 %s Thinking with %s model..." [glyph, label]))] } := by
            have hsig : (s.sending && (k + 1 == s.loops.length)) = false := by
              rw [hs, Bool.false_and]
            rw [step_loop s k _ _ hk, hsig]
            simp [Loop.step, hg, hglen, hset3]
          rw [this]
          have hout2 : ∀ x ∈ s.out ++ [Out.spinner k (Write.frame
              (Sprintf "\r🤔 %s Thinking with %s model..." [glyph, label]))],
              x.isCaller = false := by
            intro x hx
            rcases List.mem_append.mp hx with hx | hx
            · exact hout x hx
            · rw [List.mem_singleton] at hx
              rw [hx]; rfl
          exact ⟨framesFirst_of_no_caller _ hout2,
            Or.inr ⟨m, texts, olds, (i + 1) % 10, hmain, rfl, Nat.mod_lt _ (by decide), hset,
              hout2, hn⟩⟩
      · have hk : s.loops[k]? = none := by
          apply List.getElem?_eq_none
          omega
        have : s.step (Choice.loop k) = s := by simp [Sys.step, hk]
        rw [this]
        exact ⟨hord, Or.inr ⟨m, texts, olds, i, hmain, hloops, hi, hset, hout, hn⟩⟩

theorem Inv_init (label : String) (n : Nat) (texts : List String) :
    Inv label n (Sys.init (cycles label n ++ List.map MainOp.print texts)) :=
  ⟨⟨[], [], rfl, by simp, by simp⟩,
    Or.inl ⟨n, texts, rfl, rfl, by simp [Sys.init], Or.inr (by simp [Sys.init]),
      by simp [Sys.init]⟩⟩

theorem Inv_exec (label : String) (n : Nat) (sched : List Choice) :
    ∀ s, Inv label n s → Inv label n (s.exec sched) := by
  induction sched with
  | nil => intro s h; exact h
  | cons c rest ih =>
    intro s h
    exact ih (s.step c) (Inv_step label n s c h)

/-- The spinner and terminal steps of a run of `RunCommit`: nothing, or one
cycle of start and stop followed by the lines of the result. -/
theorem programOf_RunCommit (env : Env) (getModel : String) :
    ∃ n texts, n ≤ 1 ∧ programOf (RunCommit env getModel).2 =
      cycles (usedModel getModel) n ++ List.map MainOp.print texts := by
  rcases RunCommit_cases env getModel with ⟨e, h1, h⟩ | ⟨h1, e, h2, h⟩ | ⟨h1, h2, e, h3, h⟩ |
    ⟨h1, h2, h3, h⟩ | ⟨h1, h2, d, h3, hne, e, h4, h⟩ | ⟨h1, h2, d, h3, hne, out, h4, h⟩
  · exact ⟨0, [], by decide, by rw [h]; rfl⟩
  · exact ⟨0, [], by decide, by rw [h]; rfl⟩
  · exact ⟨0, [], by decide, by rw [h]; rfl⟩
  · exact ⟨0, [], by decide, by rw [h]; rfl⟩
  · exact ⟨1, [], by decide, by rw [h]; rfl⟩
  · exact ⟨1, ["\nGenerated commit message:\n", TrimSpace out ++ "\n"], by decide,
      by rw [h]; rfl⟩

theorem settled_of_no_stop (label : String) (n : Nat) (s : Sys) (h : Inv label n s)
    (hs : MainOp.stop ∉ s.main) : ∀ l ∈ s.loops, l.2.settled = true := by
  rcases h.2 with ⟨m, texts, hmain, hsend, hset, hout, hn⟩ |
    ⟨m, texts, olds, i, hmain, hloops, hi, hset, hout, hn⟩
  · exact hset
  · rw [hmain] at hs
    simp at hs

/-- C16, as the code has it: `Stop` returns as soon as the loop has received
the signal.  In every interleaving of a run of `RunCommit` every frame comes
before every output of the main goroutine, and once `Stop` has returned the
loop has received the signal: it is about to write the clear or has
returned. -/
theorem Stop_hand_off (env : Env) (getModel : String) (sched : List Choice) :
    FramesFirst ((Sys.init (programOf (RunCommit env getModel).2)).exec sched).out ∧
      (MainOp.stop ∉ ((Sys.init (programOf (RunCommit env getModel).2)).exec sched).main →
        ∀ l ∈ ((Sys.init (programOf (RunCommit env getModel).2)).exec sched).loops,
          l.2.settled = true) := by
  obtain ⟨n, texts, _, hp⟩ := programOf_RunCommit env getModel
  have hinv := Inv_exec (usedModel getModel) n sched _ (Inv_init (usedModel getModel) n texts)
  rw [← hp] at hinv
  exact ⟨hinv.1, settled_of_no_stop _ _ _ hinv⟩

/-- C16 fails as stated: in a successful run of `RunCommit`, when the main
goroutine goes on first after the hand-off, `Stop` has returned while the loop
has yet to write the clear, and the two lines of the result are on the terminal
before the clear. -/
theorem Stop_returns_before_clear_counterexample :
    (Sys.init (programOf (RunCommit envAnswering "").2)).exec
          [Choice.main, Choice.main, Choice.loop 0] =
        { main := [MainOp.print "\nGenerated commit message:\n",
                   MainOp.print "git commit -m \"feat: x\"\n"],
          sending := false, loops := [("llama3.1", LoopState.clearing)], out := [] } ∧
      (Sys.init (programOf (RunCommit envAnswering "").2)).exec
          [Choice.main, Choice.main, Choice.loop 0, Choice.main, Choice.main, Choice.loop 0] =
        { main := [], sending := false, loops := [("llama3.1", LoopState.done)],
          out := [Out.caller "\nGenerated commit message:\n",
                  Out.caller "git commit -m \"feat: x\"\n", Out.spinner 0 Write.clear] } := by
  decide

theorem exec_append (s : Sys) (a b : List Choice) : s.exec (a ++ b) = (s.exec a).exec b := by
  simp [Sys.exec, List.foldl_append]

theorem countP_starts_cycles (label : String) (m : Nat) (texts : List String) :
    (cycles label m ++ List.map MainOp.print texts).countP MainOp.isStart = m := by
  induction m with
  | zero =>
    simp only [cycles, List.nil_append, List.countP_eq_zero]
    intro a ha
    obtain ⟨t, _, rfl⟩ := List.mem_map.mp ha
    simp [MainOp.isStart]
  | succ m ih =>
    simp only [cycles, List.cons_append, List.countP_cons, ih, MainOp.isStart]
    simp

theorem head_cycles_ne_stop (label : String) (m : Nat) (texts : List String) :
    (cycles label m ++ List.map MainOp.print texts).head? ≠ some MainOp.stop := by
  cases m with
  | zero => cases texts <;> simp [cycles]
  | succ m => simp [cycles]

theorem pollingCount_settled (loops : List (String × LoopState))
    (h : ∀ l ∈ loops, l.2.settled = true) : pollingCount loops = 0 := by
  rw [pollingCount, List.countP_eq_zero]
  intro l hl
  have := h l hl
  cases hst : l.2 <;> simp [hst, LoopState.settled] at this <;> simp [LoopState.isPolling]

/-- In a state where the main goroutine is not sending and every loop has
received its signal, letting the first `j` loops take one step each leaves all
of them returned. -/
theorem drain (s : Sys) (hs : s.sending = false) (hset : ∀ l ∈ s.loops, l.2.settled = true) :
    ∀ j, j ≤ s.loops.length →
      (s.exec ((List.range j).map Choice.loop)).sending = false ∧
        (s.exec ((List.range j).map Choice.loop)).loops.length = s.loops.length ∧
        (∀ l ∈ (s.exec ((List.range j).map Choice.loop)).loops, l.2.settled = true) ∧
        ∀ k, k < j → ∃ lab,
          (s.exec ((List.range j).map Choice.loop)).loops[k]? = some (lab, LoopState.done) := by
  intro j
  induction j with
  | zero =>
    intro _
    exact ⟨hs, rfl, hset, fun k hk => absurd hk (Nat.not_lt_zero k)⟩
  | succ j ih =>
    intro hj
    obtain ⟨h1, h2, h3, h4⟩ := ih (by omega)
    rw [List.range_succ, List.map_append, exec_append]
    generalize s.exec ((List.range j).map Choice.loop) = t at h1 h2 h3 h4
    have hlt : j < t.loops.length := by omega
    rcases hl : t.loops[j] with ⟨lab, st⟩
    have hk : t.loops[j]? = some (lab, st) := by
      rw [List.getElem?_eq_getElem hlt, hl]
    have hst : st.settled = true := h3 _ (List.getElem?_mem hk)
    obtain ⟨hd, _⟩ := settled_step lab false st hst
    have hstep : Sys.exec t [Choice.loop j] =
        { t with loops := t.loops.set j (lab, LoopState.done),
                 out := t.out ++ (Loop.step lab false st).2.map (Out.spinner j) } := by
      show t.step (Choice.loop j) = _
      rw [step_loop t j lab st hk, h1, Bool.false_and, hd]
      simp
    simp only [List.map_cons, List.map_nil]
    rw [hstep]
    refine ⟨h1, by simp [h2], ?_, ?_⟩
    · intro l hl2
      rcases List.mem_or_eq_of_mem_set hl2 with hl2 | hl2
      · exact h3 l hl2
      · rw [hl2]; rfl
    · intro k hk2
      by_cases hkj : k = j
      · subst hkj
        exact ⟨lab, by simp [List.getElem?_set, hlt]⟩
      · obtain ⟨lab2, hl3⟩ := h4 k (by omega)
        exact ⟨lab2, by simp only [List.getElem?_set_ne (Ne.symm hkj)]; exact hl3⟩

theorem liveCount_drained (loops : List (String × LoopState))
    (h : ∀ k, k < loops.length → ∃ lab, loops[k]? = some (lab, LoopState.done)) :
    liveCount loops = 0 := by
  rw [liveCount, List.countP_eq_zero]
  intro l hl
  obtain ⟨k, hk, hget⟩ := List.getElem_of_mem hl
  obtain ⟨lab, hd⟩ := h k hk
  rw [List.getElem?_eq_getElem hk, hget] at hd
  rw [Option.some.inj hd]
  simp

theorem Inv_cyclesRun (label : String) (n : Nat) (sched : List Choice) :
    Inv label n (cyclesRun label n sched) := by
  have h := Inv_exec label n sched _ (Inv_init label n [])
  simpa [cyclesRun] using h

/-- C17, as the code has it: in every state of `n` cycles of `New`,
`Start(label)`, `Stop`, under every scheduling, the number of loops still at
their `select` is 1 while the next step of the main goroutine is a `Stop` and 0
otherwise; there is one loop for each `Start` done; every loop is at its
`select` with an index below 10 or has received its signal.  When the `n`
cycles are over, every one of the `n` loops has received its signal, and once
each has taken its next step all have returned. -/
theorem cycles_loops_settle (label : String) (n : Nat) (sched : List Choice) :
    pollingCount (cyclesRun label n sched).loops =
        (if (cyclesRun label n sched).main.head? = some MainOp.stop then 1 else 0) ∧
      (cyclesRun label n sched).loops.length +
        (cyclesRun label n sched).main.countP MainOp.isStart = n ∧
      (∀ l ∈ (cyclesRun label n sched).loops,
        l.2.settled = true ∨ ∃ i, i < 10 ∧ l.2 = LoopState.polling i) ∧
      ((cyclesRun label n sched).main = [] →
        (∀ l ∈ (cyclesRun label n sched).loops, l.2.settled = true) ∧
          (cyclesRun label n sched).loops.length = n ∧
          liveCount ((cyclesRun label n sched).exec
            ((List.range n).map Choice.loop)).loops = 0) := by
  have hinv := Inv_cyclesRun label n sched
  generalize cyclesRun label n sched = s at hinv
  rcases hinv.2 with ⟨m, texts, hmain, hsend, hset, hout, hn⟩ |
    ⟨m, texts, olds, i, hmain, hloops, hi, hset, hout, hn⟩
  · refine ⟨?_, ?_, ?_, ?_⟩
    · rw [pollingCount_settled _ hset, hmain, if_neg (head_cycles_ne_stop label m texts)]
    · rw [hmain, countP_starts_cycles]
      exact hn
    · intro l hl
      exact Or.inl (hset l hl)
    · intro hnil
      have hm : m = 0 := by
        cases m with
        | zero => rfl
        | succ m => rw [hmain] at hnil; simp [cycles] at hnil
      have hlen : s.loops.length = n := by omega
      refine ⟨hset, hlen, ?_⟩
      obtain ⟨_, h2, _, h4⟩ := drain s hsend hset n (by omega)
      apply liveCount_drained
      intro k hk
      rw [h2, hlen] at hk
      exact h4 k hk
  · refine ⟨?_, ?_, ?_, ?_⟩
    · have h0 := pollingCount_settled olds hset
      rw [pollingCount] at h0
      rw [hmain, hloops, pollingCount, List.countP_append, h0]
      simp [LoopState.isPolling]
    · rw [hmain, hloops, List.countP_cons, countP_starts_cycles]
      simp [MainOp.isStart]
      omega
    · intro l hl
      rw [hloops] at hl
      rcases List.mem_append.mp hl with hl | hl
      · exact Or.inl (hset l hl)
      · rw [List.mem_singleton] at hl
        exact Or.inr ⟨i, hi, by rw [hl]⟩
    · intro hnil
      rw [hmain] at hnil
      simp at hnil

/-- C17 fails as stated: after one cycle, when `Stop` has returned and the loop
has not been scheduled since the receive, the loop has not returned. -/
theorem cycles_live_after_stop_counterexample :
    cyclesRun "llama3.1" 1 [Choice.main, Choice.main, Choice.loop 0] =
        { main := [], sending := false, loops := [("llama3.1", LoopState.clearing)],
          out := [] } ∧
      liveCount (cyclesRun "llama3.1" 1 [Choice.main, Choice.main, Choice.loop 0]).loops = 1 := by
  decide

/-! ## The terminal of a successful run under every scheduling -/

theorem callerTexts_append (a b : List Out) :
    callerTexts (a ++ b) = callerTexts a ++ callerTexts b := by
  induction a with
  | nil => rfl
  | cons x xs ih => cases x <;> simp [callerTexts, ih]

theorem callerTexts_spinner (k : Nat) (ws : List Write) :
    callerTexts (ws.map (Out.spinner k)) = [] := by
  induction ws with
  | nil => rfl
  | cons w ws ih => simp [callerTexts, ih]

theorem writesOf_append (k : Nat) (a b : List Out) :
    writesOf k (a ++ b) = writesOf k a ++ writesOf k b := by
  induction a with
  | nil => rfl
  | cons x xs ih =>
    cases x with
    | spinner j w => by_cases h : j = k <;> simp [writesOf, ih, h]
    | caller t => simp [writesOf, ih]

theorem writesOf_spinner (k j : Nat) (ws : List Write) :
    writesOf k (ws.map (Out.spinner j)) = if j = k then ws else [] := by
  induction ws with
  | nil => simp [writesOf]
  | cons w ws ih =>
    by_cases h : j = k
    · subst h
      simpa [writesOf] using ih
    · simp [writesOf, ih, h]

theorem writesOf_none (k : Nat) (out : List Out)
    (h : ∀ j w, Out.spinner j w ∈ out → j ≠ k) : writesOf k out = [] := by
  induction out with
  | nil => rfl
  | cons x xs ih =>
    have hxs : ∀ j w, Out.spinner j w ∈ xs → j ≠ k :=
      fun j w hm => h j w (List.mem_cons_of_mem _ hm)
    cases x with
    | spinner j w =>
      have hj : j ≠ k := h j w (List.mem_cons_self _ _)
      simp [writesOf, hj, ih hxs]
    | caller t => simp [writesOf, ih hxs]

/-- The main goroutine is sending only at a `Stop`, and what it has printed
followed by what it still has to print does not change. -/
theorem callers_step (s : Sys) (c : Choice)
    (h : s.sending = true → s.main.head? = some MainOp.stop) :
    ((s.step c).sending = true → (s.step c).main.head? = some MainOp.stop) ∧
      callerTexts (s.step c).out ++ printTexts (s.step c).main =
        callerTexts s.out ++ printTexts s.main := by
  cases c with
  | main =>
    cases hm : s.main with
    | nil => simp [Sys.step, hm]; simpa [hm] using h
    | cons op rest =>
      cases op with
      | start label =>
        have hs : s.sending = false := by
          cases hsend : s.sending with
          | false => rfl
          | true => have := h hsend; simp [hm] at this
        simp [Sys.step, hm, hs, printTexts]
      | stop => simp [Sys.step, hm, printTexts]
      | print t =>
        have hs : s.sending = false := by
          cases hsend : s.sending with
          | false => rfl
          | true => have := h hsend; simp [hm] at this
        simp [Sys.step, hm, hs, printTexts, callerTexts_append, callerTexts]
  | loop k =>
    cases hk : s.loops[k]? with
    | none =>
      have : s.step (Choice.loop k) = s := by simp [Sys.step, hk]
      rw [this]
      exact ⟨h, rfl⟩
    | some l =>
      obtain ⟨lab, st⟩ := l
      rw [step_loop s k lab st hk]
      simp only [callerTexts_append, callerTexts_spinner, List.append_nil]
      by_cases hr : (s.sending && (k + 1 == s.loops.length) && st.isPolling) = true
      · have hsend : s.sending = true := by
          cases hs : s.sending with
          | true => rfl
          | false => simp [hs] at hr
        have hhead := h hsend
        cases hm : s.main with
        | nil => simp [hm] at hhead
        | cons op rest =>
          simp only [hm, List.head?_cons, Option.some.injEq] at hhead
          subst hhead
          simp [hr, printTexts]
      · simp only [hr]
        exact ⟨h, by simp⟩

theorem loopWrites_step (label : String) (signalled : Bool) (st : LoopState) (ws : List Write)
    (h : LoopWrites st ws) :
    LoopWrites (Loop.step label signalled st).1 (ws ++ (Loop.step label signalled st).2) := by
  obtain ⟨fs, hfs, hcase⟩ := h
  cases st with
  | polling i =>
    rcases hcase with ⟨_, rfl⟩ | ⟨hd, _⟩
    · cases signalled with
      | true => exact ⟨ws, hfs, Or.inl ⟨by simp [Loop.step], by simp [Loop.step]⟩⟩
      | false =>
        cases hg : spinnerGlyphs[i]? with
        | none => exact ⟨ws, hfs, Or.inl ⟨by simp [Loop.step, hg], by simp [Loop.step, hg]⟩⟩
        | some glyph =>
          refine ⟨ws ++ (Loop.step label false (LoopState.polling i)).2, ?_,
            Or.inl ⟨by simp [Loop.step, hg], rfl⟩⟩
          intro w hw
          rcases List.mem_append.mp hw with hw | hw
          · exact hfs w hw
          · simp [Loop.step, hg] at hw
            rw [hw]; rfl
    · exact absurd hd (by simp)
  | clearing =>
    rcases hcase with ⟨_, rfl⟩ | ⟨hd, _⟩
    · exact ⟨ws, hfs, Or.inr ⟨by simp [Loop.step], by simp [Loop.step]⟩⟩
    · exact absurd hd (by simp)
  | done =>
    rcases hcase with ⟨hd, _⟩ | ⟨_, rfl⟩
    · exact absurd rfl hd
    · exact ⟨fs, hfs, Or.inr ⟨by simp [Loop.step], by simp [Loop.step]⟩⟩
  | panicked =>
    rcases hcase with ⟨_, rfl⟩ | ⟨hd, _⟩
    · exact ⟨ws, hfs, Or.inl ⟨by simp [Loop.step], by simp [Loop.step]⟩⟩
    · exact absurd hd (by simp)

/-- Every write on the terminal comes from a loop that exists, and what each
loop has written fits its state. -/
theorem writes_step (s : Sys) (c : Choice)
    (hb : ∀ k w, Out.spinner k w ∈ s.out → k < s.loops.length)
    (hw : ∀ k lab st, s.loops[k]? = some (lab, st) → LoopWrites st (writesOf k s.out)) :
    (∀ k w, Out.spinner k w ∈ (s.step c).out → k < (s.step c).loops.length) ∧
      ∀ k lab st, (s.step c).loops[k]? = some (lab, st) →
        LoopWrites st (writesOf k (s.step c).out) := by
  cases c with
  | main =>
    cases hm : s.main with
    | nil =>
      have : s.step Choice.main = s := by simp [Sys.step, hm]
      rw [this]
      exact ⟨hb, hw⟩
    | cons op rest =>
      cases op with
      | start label =>
        have : s.step Choice.main =
            { s with main := rest, loops := s.loops ++ [(label, LoopState.polling 0)] } := by
          simp [Sys.step, hm]
        rw [this]
        refine ⟨?_, ?_⟩
        · intro k w hk
          have := hb k w hk
          simp only [List.length_append, List.length_singleton]
          omega
        · intro k lab st hk
          simp only at hk
          by_cases hlt : k < s.loops.length
          · rw [List.getElem?_append_left hlt] at hk
            exact hw k lab st hk
          · rw [List.getElem?_append_right (by omega)] at hk
            have hk0 : k - s.loops.length = 0 := by
              by_contra hne
              rw [List.getElem?_eq_none (by simp; omega)] at hk
              simp at hk
            rw [hk0] at hk
            simp only [List.getElem?_cons_zero, Option.some.injEq, Prod.mk.injEq] at hk
            obtain ⟨_, rfl⟩ := hk
            have hnone : writesOf k s.out = [] := by
              apply writesOf_none
              intro j w hj
              have := hb j w hj
              omega
            exact ⟨[], by simp, Or.inl ⟨by simp, hnone⟩⟩
      | stop =>
        have : s.step Choice.main = { s with sending := true } := by simp [Sys.step, hm]
        rw [this]
        exact ⟨hb, hw⟩
      | print t =>
        have : s.step Choice.main =
            { s with main := rest, out := s.out ++ [Out.caller t] } := by
          simp [Sys.step, hm]
        rw [this]
        refine ⟨?_, ?_⟩
        · intro k w hk
          simp only [List.mem_append, List.mem_singleton] at hk
          rcases hk with hk | hk
          · exact hb k w hk
          · cases hk
        · intro k lab st hk
          simp only [writesOf_append, writesOf, List.append_nil]
          exact hw k lab st hk
  | loop k =>
    cases hk : s.loops[k]? with
    | none =>
      have : s.step (Choice.loop k) = s := by simp [Sys.step, hk]
      rw [this]
      exact ⟨hb, hw⟩
    | some l =>
      obtain ⟨lab, st⟩ := l
      have hlt : k < s.loops.length := by
        obtain ⟨h, _⟩ := List.getElem?_eq_some.mp hk
        exact h
      rw [step_loop s k lab st hk]
      refine ⟨?_, ?_⟩
      · intro j w hj
        simp only [List.length_set]
        simp only [List.mem_append, List.mem_map] at hj
        rcases hj with hj | ⟨w2, _, heq⟩
        · exact hb j w hj
        · cases heq
          exact hlt
      · intro j lab2 st2 hj
        simp only at hj
        simp only [writesOf_append, writesOf_spinner]
        by_cases hjk : k = j
        · subst hjk
          rw [List.getElem?_set_self hlt] at hj
          simp only [Option.some.injEq, Prod.mk.injEq] at hj
          obtain ⟨_, rfl⟩ := hj
          simp only [if_true]
          exact loopWrites_step lab _ st _ (hw k lab st hk)
        · rw [List.getElem?_set_ne hjk] at hj
          simp only [hjk, if_false, List.append_nil]
          exact hw j lab2 st2 hj

theorem callers_exec (sched : List Choice) :
    ∀ s : Sys, (s.sending = true → s.main.head? = some MainOp.stop) →
      callerTexts (s.exec sched).out ++ printTexts (s.exec sched).main =
        callerTexts s.out ++ printTexts s.main := by
  induction sched with
  | nil => intro s _; rfl
  | cons c rest ih =>
    intro s h
    have hstep := callers_step s c h
    exact (ih (s.step c) hstep.1).trans hstep.2

theorem writes_exec (sched : List Choice) :
    ∀ s : Sys, (∀ k w, Out.spinner k w ∈ s.out → k < s.loops.length) →
      (∀ k lab st, s.loops[k]? = some (lab, st) → LoopWrites st (writesOf k s.out)) →
      (∀ k w, Out.spinner k w ∈ (s.exec sched).out → k < (s.exec sched).loops.length) ∧
        ∀ k lab st, (s.exec sched).loops[k]? = some (lab, st) →
          LoopWrites st (writesOf k (s.exec sched).out) := by
  induction sched with
  | nil => intro s hb hw; exact ⟨hb, hw⟩
  | cons c rest ih =>
    intro s hb hw
    have hstep := writes_step s c hb hw
    exact ih (s.step c) hstep.1 hstep.2

theorem mem_writesOf (k : Nat) (w : Write) (out : List Out) :
    w ∈ writesOf k out ↔ Out.spinner k w ∈ out := by
  induction out with
  | nil => simp [writesOf]
  | cons x xs ih =>
    cases x with
    | spinner j v =>
      by_cases h : j = k
      · subst h
        simp [writesOf, ih]
      · simp only [writesOf, h, if_false, ih, List.mem_cons, Out.spinner.injEq]
        constructor
        · intro hm; exact Or.inr hm
        · rintro (⟨hkj, _⟩ | hm)
          · exact absurd hkj.symm h
          · exact hm
    | caller t => simp [writesOf, ih]

theorem framesFirst_tail (x : Out) (xs : List Out) (h : FramesFirst (x :: xs)) :
    FramesFirst xs := by
  obtain ⟨pre, post, heq, hpre, hpost⟩ := h
  cases pre with
  | nil =>
    simp only [List.nil_append] at heq
    refine ⟨[], xs, rfl, by simp, ?_⟩
    intro y hy
    exact hpost y (by rw [← heq]; exact List.mem_cons_of_mem _ hy)
  | cons y pre2 =>
    simp only [List.cons_append, List.cons.injEq] at heq
    exact ⟨pre2, post, heq.2, fun z hz => hpre z (List.mem_cons_of_mem _ hz), hpost⟩

/-- The shape of the terminal output when one loop writes: its frames, then
output without frames that holds at most the one clear. -/
theorem stream_shape (out : List Out) :
    (∀ k w, Out.spinner k w ∈ out → k = 0) → FramesFirst out →
      (∃ fs, (∀ w ∈ fs, w.isFrame = true) ∧
        (writesOf 0 out = fs ∨ writesOf 0 out = fs ++ [Write.clear])) →
      ∃ (fs : List Write) (rest : List Out), (∀ w ∈ fs, w.isFrame = true) ∧
        out = fs.map (Out.spinner 0) ++ rest ∧
        (∀ x ∈ rest, x.isFrame = false) ∧
        (writesOf 0 rest = [] ∨ writesOf 0 rest = [Write.clear]) := by
  induction out with
  | nil =>
    intro _ _ _
    exact ⟨[], [], by simp, rfl, by simp, Or.inl rfl⟩
  | cons x xs ih =>
    intro h0 hF hW
    have h0xs : ∀ k w, Out.spinner k w ∈ xs → k = 0 :=
      fun k w hm => h0 k w (List.mem_cons_of_mem _ hm)
    obtain ⟨fs, hfs, hcase⟩ := hW
    cases x with
    | spinner k w =>
      have hk : k = 0 := h0 k w (List.mem_cons_self _ _)
      subst hk
      simp only [writesOf, if_true] at hcase
      cases w with
      | frame t =>
        cases fs with
        | nil =>
          rcases hcase with hcase | hcase
          · simp at hcase
          · simp at hcase
        | cons f fs2 =>
          have hfs2 : ∀ w ∈ fs2, w.isFrame = true :=
            fun w hw => hfs w (List.mem_cons_of_mem _ hw)
          have hxs : writesOf 0 xs = fs2 ∨ writesOf 0 xs = fs2 ++ [Write.clear] := by
            rcases hcase with hcase | hcase
            · simp only [List.cons.injEq] at hcase
              exact Or.inl hcase.2
            · simp only [List.cons_append, List.cons.injEq] at hcase
              exact Or.inr hcase.2
          obtain ⟨gs, rest, hgs, heq, hrest, hwr⟩ :=
            ih h0xs (framesFirst_tail _ _ hF) ⟨fs2, hfs2, hxs⟩
          refine ⟨Write.frame t :: gs, rest, ?_, ?_, hrest, hwr⟩
          · intro w hw
            rcases List.mem_cons.mp hw with rfl | hw
            · rfl
            · exact hgs w hw
          · simp [heq]
      | clear =>
        have hfsnil : fs = [] := by
          cases fs with
          | nil => rfl
          | cons f fs2 =>
            have hf := hfs f (List.mem_cons_self _ _)
            rcases hcase with hcase | hcase
            · simp only [List.cons.injEq] at hcase
              rw [← hcase.1] at hf
              simp [Write.isFrame] at hf
            · simp only [List.cons_append, List.cons.injEq] at hcase
              rw [← hcase.1] at hf
              simp [Write.isFrame] at hf
        subst hfsnil
        have hxs : writesOf 0 xs = [] := by
          rcases hcase with hcase | hcase
          · simp at hcase
          · simpa using hcase
        refine ⟨[], Out.spinner 0 Write.clear :: xs, by simp, rfl, ?_, ?_⟩
        · intro y hy
          rcases List.mem_cons.mp hy with rfl | hy
          · rfl
          · cases y with
            | caller t => rfl
            | spinner j v =>
              have hj : j = 0 := h0xs j v hy
              subst hj
              have := (mem_writesOf 0 v xs).mpr hy
              rw [hxs] at this
              simp at this
        · simp [writesOf, hxs]
    | caller t =>
      simp only [writesOf] at hcase
      obtain ⟨pre, post, heq, hpre, hpost⟩ := hF
      have hprenil : pre = [] := by
        cases pre with
        | nil => rfl
        | cons y pre2 =>
          simp only [List.cons_append, List.cons.injEq] at heq
          have := hpre y (List.mem_cons_self _ _)
          rw [← heq.1] at this
          simp [Out.isCaller] at this
      subst hprenil
      simp only [List.nil_append] at heq
      have hnof : ∀ y ∈ Out.caller t :: xs, y.isFrame = false := by
        intro y hy
        exact hpost y (by rw [← heq]; exact hy)
      have hfsnil : fs = [] := by
        cases fs with
        | nil => rfl
        | cons f fs2 =>
          have hf := hfs f (List.mem_cons_self _ _)
          have hmem : f ∈ writesOf 0 xs := by
            rcases hcase with hcase | hcase <;> rw [hcase] <;> simp
          have := hnof _ (List.mem_cons_of_mem _ ((mem_writesOf 0 f xs).mp hmem))
          cases f with
          | frame u => simp [Out.isFrame] at this
          | clear => simp [Write.isFrame] at hf
      subst hfsnil
      refine ⟨[], Out.caller t :: xs, by simp, rfl, hnof, ?_⟩
      simpa [writesOf] using hcase

theorem length_callers_writes (out : List Out) (h0 : ∀ k w, Out.spinner k w ∈ out → k = 0) :
    out.length = (callerTexts out).length + (writesOf 0 out).length := by
  induction out with
  | nil => rfl
  | cons x xs ih =>
    have h0xs : ∀ k w, Out.spinner k w ∈ xs → k = 0 :=
      fun k w hm => h0 k w (List.mem_cons_of_mem _ hm)
    cases x with
    | spinner k w =>
      have hk : k = 0 := h0 k w (List.mem_cons_self _ _)
      subst hk
      simp [callerTexts, writesOf, ih h0xs]
      omega
    | caller t =>
      simp [callerTexts, writesOf, ih h0xs]
      omega

theorem only_callers (r : List Out) (h0 : ∀ k w, Out.spinner k w ∈ r → k = 0)
    (hw : writesOf 0 r = []) : r = (callerTexts r).map Out.caller := by
  induction r with
  | nil => rfl
  | cons x xs ih =>
    have h0xs : ∀ k w, Out.spinner k w ∈ xs → k = 0 :=
      fun k w hm => h0 k w (List.mem_cons_of_mem _ hm)
    cases x with
    | spinner k w =>
      have hk : k = 0 := h0 k w (List.mem_cons_self _ _)
      subst hk
      simp [writesOf] at hw
    | caller t =>
      simp only [writesOf] at hw
      simp only [callerTexts, List.map_cons, List.cons.injEq, true_and]
      exact ih h0xs hw

theorem one_clear (r : List Out) (h0 : ∀ k w, Out.spinner k w ∈ r → k = 0)
    (hw : writesOf 0 r = [Write.clear]) :
    ∃ c1 c2, callerTexts r = c1 ++ c2 ∧
      r = c1.map Out.caller ++ Out.spinner 0 Write.clear :: c2.map Out.caller := by
  induction r with
  | nil => simp [writesOf] at hw
  | cons x xs ih =>
    have h0xs : ∀ k w, Out.spinner k w ∈ xs → k = 0 :=
      fun k w hm => h0 k w (List.mem_cons_of_mem _ hm)
    cases x with
    | spinner k w =>
      have hk : k = 0 := h0 k w (List.mem_cons_self _ _)
      subst hk
      simp only [writesOf, if_true, List.cons.injEq] at hw
      obtain ⟨rfl, hxs⟩ := hw
      refine ⟨[], callerTexts xs, by simp [callerTexts], ?_⟩
      simp only [List.map_nil, List.nil_append, List.cons.injEq, true_and]
      exact only_callers xs h0xs hxs
    | caller t =>
      simp only [writesOf] at hw
      obtain ⟨c1, c2, hc, hr⟩ := ih h0xs hw
      refine ⟨t :: c1, c2, by simp [callerTexts, hc], ?_⟩
      simp only [List.map_cons, List.cons_append, List.cons.injEq, true_and]
      exact hr

/-- With two lines printed and at most the one clear written, the output after
the frames is the two lines, with the clear nowhere, before them, between them
or after them. -/
theorem endings (rest : List Out) (a b : String)
    (h0 : ∀ k w, Out.spinner k w ∈ rest → k = 0)
    (hW : writesOf 0 rest = [] ∨ writesOf 0 rest = [Write.clear])
    (hC : callerTexts rest = [a, b]) :
    rest = [Out.caller a, Out.caller b] ∨
      rest = [Out.spinner 0 Write.clear, Out.caller a, Out.caller b] ∨
      rest = [Out.caller a, Out.spinner 0 Write.clear, Out.caller b] ∨
      rest = [Out.caller a, Out.caller b, Out.spinner 0 Write.clear] := by
  rcases hW with hW | hW
  · have := only_callers rest h0 hW
    rw [hC] at this
    exact Or.inl this
  · obtain ⟨c1, c2, hc, hr⟩ := one_clear rest h0 hW
    rw [hC] at hc
    rcases c1 with _ | ⟨x, _ | ⟨y, c1⟩⟩
    · simp only [List.nil_append] at hc
      subst hc
      exact Or.inr (Or.inl hr)
    · simp only [List.cons_append, List.nil_append, List.cons.injEq] at hc
      obtain ⟨rfl, hc⟩ := hc
      subst hc
      exact Or.inr (Or.inr (Or.inl hr))
    · simp only [List.cons_append, List.cons.injEq] at hc
      obtain ⟨rfl, rfl, hc⟩ := hc
      have h1 : c1 = [] := by
        cases c1 with
        | nil => rfl
        | cons z zs => simp at hc
      subst h1
      have h2 : c2 = [] := by simpa using hc.symm
      subst h2
      exact Or.inr (Or.inr (Or.inr hr))

theorem Inv_loops_le (label : String) (n : Nat) (s : Sys) (h : Inv label n s) :
    s.loops.length ≤ n := by
  rcases h.2 with ⟨m, texts, hmain, hsend, hset, hout, hn⟩ |
    ⟨m, texts, olds, i, hmain, hloops, hi, hset, hout, hn⟩
  · omega
  · rw [hloops]
    simp only [List.length_append, List.length_singleton]
    omega

/-- The run of `RunCommit` when every gate passes and the completion succeeds
with message `m`. -/
theorem RunCommit_success_trace (env : Env) (getModel d m : String)
    (hl : env.lookPathOllama = none) (hr : env.gitRevParse = none)
    (hd : env.gitDiffCached = Except.ok d) (hne : d ≠ "")
    (hm : (GenerateCommitMessage env d (if getModel = "" then "llama3.1" else getModel)).1 =
      (m, none)) :
    RunCommit env getModel =
      (none, [Event.lookPath "ollama", Event.exec "git" ["rev-parse", "--is-inside-work-tree"],
        Event.exec "git" ["diff", "--cached"],
        Event.spinnerStart (if getModel = "" then "llama3.1" else getModel),
        Event.call "ollama.GenerateCommitMessage"
          [d, if getModel = "" then "llama3.1" else getModel],
        Event.exec "ollama"
          ["run", if getModel = "" then "llama3.1" else getModel, buildPrompt d],
        Event.spinnerStop,
        Event.stdout "\nGenerated commit message:\n", Event.stdout (m ++ "\n")]) := by
  rcases hg : GenerateCommitMessage env d (if getModel = "" then "llama3.1" else getModel)
    with ⟨⟨m1, e1⟩, t⟩
  simp only [hg, Prod.mk.injEq] at hm
  obtain ⟨rfl, rfl⟩ := hm
  have ht : t = [Event.exec "ollama"
      ["run", if getModel = "" then "llama3.1" else getModel, buildPrompt d]] := by
    have := congrArg Prod.snd hg
    simp only [GenerateCommitMessage] at this
    split at this <;> exact this.symm
  simp only [RunCommit, CheckInstallation, CheckRepo, GetStagedDiff, hl, hr, hd, hne, hg, ht,
    if_false, Println]
  rfl

theorem printTexts_prints (texts : List String) :
    printTexts (List.map MainOp.print texts) = texts := by
  induction texts with
  | nil => rfl
  | cons t ts ih => simp [printTexts, ih]

theorem callerTexts_quiet (out : List Out) (h : ∀ x ∈ out, x.isCaller = false) :
    callerTexts out = [] := by
  induction out with
  | nil => rfl
  | cons x xs ih =>
    cases x with
    | spinner k w =>
      simp only [callerTexts]
      exact ih (fun y hy => h y (List.mem_cons_of_mem _ hy))
    | caller t =>
      have := h _ (List.mem_cons_self _ _)
      simp [Out.isCaller] at this

/-- From every state of the run of one spinner cycle and two lines, the main
goroutine gets to its end when the scheduler lets it send, lets the loop
receive and lets it print. -/
theorem finish_of_inv (label a b : String) (s : Sys) (hinv : Inv label 1 s)
    (hcall : callerTexts s.out ++ printTexts s.main = [a, b]) :
    (s.exec [Choice.main, Choice.main, Choice.loop 0, Choice.main, Choice.main,
      Choice.main]).main = [] := by
  obtain ⟨smain, ssending, sloops, sout⟩ := s
  rcases hinv.2 with ⟨m, texts, hmain, hsend, hset, hout, hn⟩ |
    ⟨m, texts, olds, i, hmain, hloops, hi, hset, hout, hn⟩
  · simp only at hmain hsend hset hout hn hcall
    subst hmain hsend
    have hlen := congrArg List.length hcall
    cases m with
    | succ k =>
      have hk : k = 0 := by omega
      subst hk
      have hl : sloops = [] := by
        cases sloops with
        | nil => rfl
        | cons x xs => simp at hn
      subst hl
      have hc : callerTexts sout = [] :=
        callerTexts_quiet sout (hout.resolve_left (by omega))
      rw [hc] at hcall
      have hp : printTexts (cycles label (0 + 1) ++ List.map MainOp.print texts) = texts :=
        printTexts_prints texts
      rw [hp] at hcall
      simp only [List.nil_append] at hcall
      subst hcall
      simp [cycles, Sys.exec, Sys.step, Loop.step, LoopState.isPolling]
    | zero =>
      simp only [cycles, List.nil_append, printTexts_prints, List.length_append] at hlen
      rcases sloops with _ | ⟨⟨lab, st⟩, _ | ⟨y, ys⟩⟩
      · simp at hn
      · rcases texts with _ | ⟨t1, _ | ⟨t2, _ | ⟨t3, ts⟩⟩⟩
        · simp [cycles, Sys.exec, Sys.step, LoopState.isPolling]
        · simp [cycles, Sys.exec, Sys.step, LoopState.isPolling]
        · simp [cycles, Sys.exec, Sys.step, LoopState.isPolling]
        · simp at hlen
          omega
      · simp at hn
  · simp only at hmain hloops hset hout hn hcall
    subst hmain hloops
    have hm : m = 0 := by omega
    subst hm
    have ho : olds = [] := by
      cases olds with
      | nil => rfl
      | cons x xs => simp at hn
    subst ho
    have hc : callerTexts sout = [] := callerTexts_quiet sout hout
    rw [hc] at hcall
    simp only [cycles, List.nil_append, printTexts, printTexts_prints] at hcall
    subst hcall
    cases ssending <;>
      simp [cycles, Sys.exec, Sys.step, Loop.step, LoopState.isPolling]

/-- The terminal in a run of the two-line program behind one spinner cycle,
under every scheduling. -/
theorem stream_of_success (label a b : String) (sched : List Choice) :
    callerTexts ((Sys.init [MainOp.start label, MainOp.stop, MainOp.print a,
          MainOp.print b]).exec sched).out ++
        printTexts ((Sys.init [MainOp.start label, MainOp.stop, MainOp.print a,
          MainOp.print b]).exec sched).main = [a, b] ∧
      ∃ (frames : List Write) (rest : List Out), (∀ w ∈ frames, w.isFrame = true) ∧
        ((Sys.init [MainOp.start label, MainOp.stop, MainOp.print a,
          MainOp.print b]).exec sched).out = frames.map (Out.spinner 0) ++ rest ∧
        (∀ k w, Out.spinner k w ∈ rest → k = 0 ∧ w = Write.clear) ∧
        (writesOf 0 rest = [] ∨ writesOf 0 rest = [Write.clear]) ∧
        (((Sys.init [MainOp.start label, MainOp.stop, MainOp.print a,
            MainOp.print b]).exec sched).main = [] →
          rest = [Out.caller a, Out.caller b] ∨
            rest = [Out.spinner 0 Write.clear, Out.caller a, Out.caller b] ∨
            rest = [Out.caller a, Out.spinner 0 Write.clear, Out.caller b] ∨
            rest = [Out.caller a, Out.caller b, Out.spinner 0 Write.clear]) ∧
        ((Sys.init [MainOp.start label, MainOp.stop, MainOp.print a,
            MainOp.print b]).exec (sched ++ [Choice.main, Choice.main, Choice.loop 0,
              Choice.main, Choice.main, Choice.main])).main = [] := by
  have hprog : [MainOp.start label, MainOp.stop, MainOp.print a, MainOp.print b] =
      cycles label 1 ++ List.map MainOp.print [a, b] := rfl
  rw [exec_append]
  generalize hs : (Sys.init [MainOp.start label, MainOp.stop, MainOp.print a,
    MainOp.print b]).exec sched = s
  have hinv : Inv label 1 s := by
    rw [← hs, hprog]
    exact Inv_exec label 1 sched _ (Inv_init label 1 [a, b])
  have hcall : callerTexts s.out ++ printTexts s.main = [a, b] := by
    rw [← hs]
    exact callers_exec sched _ (by simp [Sys.init])
  have hwr := writes_exec sched
    (Sys.init [MainOp.start label, MainOp.stop, MainOp.print a, MainOp.print b])
    (by simp [Sys.init]) (by simp [Sys.init])
  rw [hs] at hwr
  have hlen := Inv_loops_le label 1 s hinv
  have h0 : ∀ k w, Out.spinner k w ∈ s.out → k = 0 := by
    intro k w hk
    have := hwr.1 k w hk
    omega
  have hW : ∃ fs, (∀ w ∈ fs, w.isFrame = true) ∧
      (writesOf 0 s.out = fs ∨ writesOf 0 s.out = fs ++ [Write.clear]) := by
    cases hl : s.loops[0]? with
    | none =>
      refine ⟨[], by simp, Or.inl ?_⟩
      apply writesOf_none
      intro j w hj
      have := hwr.1 j w hj
      have hz : s.loops.length ≤ 0 := List.getElem?_eq_none_iff.mp hl
      omega
    | some l =>
      obtain ⟨lab, st⟩ := l
      obtain ⟨fs, hfs, hcase⟩ := hwr.2 0 lab st hl
      exact ⟨fs, hfs, hcase.imp (fun h => h.2) (fun h => h.2)⟩
  obtain ⟨fs, rest, hfs, heq, hrest, hwrest⟩ := stream_shape s.out h0 hinv.1 hW
  have h0rest : ∀ k w, Out.spinner k w ∈ rest → k = 0 := by
    intro k w hk
    exact h0 k w (by rw [heq]; exact List.mem_append_right _ hk)
  refine ⟨hcall, fs, rest, hfs, heq, ?_, hwrest, ?_, finish_of_inv label a b s hinv hcall⟩
  · intro k w hk
    refine ⟨h0rest k w hk, ?_⟩
    have := hrest _ hk
    cases w with
    | frame t => simp [Out.isFrame] at this
    | clear => rfl
  · intro hmain
    rw [hmain, heq, callerTexts_append, callerTexts_spinner] at hcall
    simp only [printTexts, List.append_nil, List.nil_append] at hcall
    exact endings rest a b h0rest hwrest hcall

/-- C3, as the code has it: when the runner is found, the probe succeeds, the
staged diff `d` is not empty and the completion succeeds with message `m`,
`RunCommit` returns nil and its own statements write to standard output a blank
line, the line "Generated commit message:" and `m` followed by a newline, in
that order.  The loop of the spinner it started writes to the same standard
output.  Under every scheduling and at every moment, the lines printed so far
followed by the lines still to print are the header and `m`; the terminal holds
the frames of the loop first and after them nothing of the loop but at most its
one clear; once the last line is printed, what follows the frames is the
header and `m` with the clear not yet written, before the header, between the
header and `m`, or after `m`; and from every moment the main goroutine gets to
its end when the scheduler lets it send, the loop receive, and it print. -/
theorem RunCommit_success_stream (env : Env) (getModel d m : String)
    (hl : env.lookPathOllama = none) (hr : env.gitRevParse = none)
    (hd : env.gitDiffCached = Except.ok d) (hne : d ≠ "")
    (hm : (GenerateCommitMessage env d (if getModel = "" then "llama3.1" else getModel)).1 =
      (m, none)) :
    (RunCommit env getModel).1 = none ∧
      stdoutOf (RunCommit env getModel).2 = "\nGenerated commit message:\n" ++ m ++ "\n" ∧
      ∀ sched : List Choice,
        callerTexts (commitRun env getModel sched).out ++
            printTexts (commitRun env getModel sched).main =
          ["\nGenerated commit message:\n", m ++ "\n"] ∧
        ∃ (frames : List Write) (rest : List Out), (∀ w ∈ frames, w.isFrame = true) ∧
          (commitRun env getModel sched).out = frames.map (Out.spinner 0) ++ rest ∧
          (∀ k w, Out.spinner k w ∈ rest → k = 0 ∧ w = Write.clear) ∧
          (writesOf 0 rest = [] ∨ writesOf 0 rest = [Write.clear]) ∧
          ((commitRun env getModel sched).main = [] →
            rest = [Out.caller "\nGenerated commit message:\n", Out.caller (m ++ "\n")] ∨
              rest = [Out.spinner 0 Write.clear, Out.caller "\nGenerated commit message:\n",
                Out.caller (m ++ "\n")] ∨
              rest = [Out.caller "\nGenerated commit message:\n", Out.spinner 0 Write.clear,
                Out.caller (m ++ "\n")] ∨
              rest = [Out.caller "\nGenerated commit message:\n", Out.caller (m ++ "\n"),
                Out.spinner 0 Write.clear]) ∧
          (commitRun env getModel (sched ++ [Choice.main, Choice.main, Choice.loop 0,
            Choice.main, Choice.main, Choice.main])).main = [] := by
  have hrun := RunCommit_success_trace env getModel d m hl hr hd hne hm
  refine ⟨by rw [hrun], ?_, ?_⟩
  · rw [hrun]
    apply String.ext
    simp [stdoutOf]
  · intro sched
    have hprog : programOf (RunCommit env getModel).2 =
        [MainOp.start (if getModel = "" then "llama3.1" else getModel), MainOp.stop,
          MainOp.print "\nGenerated commit message:\n", MainOp.print (m ++ "\n")] := by
      rw [hrun]
      rfl
    simp only [commitRun, hprog]
    exact stream_of_success _ _ _ sched

/-- C3 at the sample environment whose runner answers. -/
theorem RunCommit_success_stream_witness :
    (RunCommit envAnswering "").1 = none ∧
      stdoutOf (RunCommit envAnswering "").2 =
        "\nGenerated commit message:\n" ++ "git commit -m \"feat: x\"" ++ "\n" ∧
      ∀ sched : List Choice,
        callerTexts (commitRun envAnswering "" sched).out ++
            printTexts (commitRun envAnswering "" sched).main =
          ["\nGenerated commit message:\n", "git commit -m \"feat: x\"" ++ "\n"] ∧
        ∃ (frames : List Write) (rest : List Out), (∀ w ∈ frames, w.isFrame = true) ∧
          (commitRun envAnswering "" sched).out = frames.map (Out.spinner 0) ++ rest ∧
          (∀ k w, Out.spinner k w ∈ rest → k = 0 ∧ w = Write.clear) ∧
          (writesOf 0 rest = [] ∨ writesOf 0 rest = [Write.clear]) ∧
          ((commitRun envAnswering "" sched).main = [] →
            rest = [Out.caller "\nGenerated commit message:\n",
                Out.caller ("git commit -m \"feat: x\"" ++ "\n")] ∨
              rest = [Out.spinner 0 Write.clear, Out.caller "\nGenerated commit message:\n",
                Out.caller ("git commit -m \"feat: x\"" ++ "\n")] ∨
              rest = [Out.caller "\nGenerated commit message:\n", Out.spinner 0 Write.clear,
                Out.caller ("git commit -m \"feat: x\"" ++ "\n")] ∨
              rest = [Out.caller "\nGenerated commit message:\n",
                Out.caller ("git commit -m \"feat: x\"" ++ "\n"),
                Out.spinner 0 Write.clear]) ∧
          (commitRun envAnswering "" (sched ++ [Choice.main, Choice.main, Choice.loop 0,
            Choice.main, Choice.main, Choice.main])).main = [] :=
  RunCommit_success_stream envAnswering "" "+new line\n" "git commit -m \"feat: x\""
    rfl rfl rfl (by decide) (by decide)

/-- C3 fails as stated: in a successful run of `RunCommit` at the sample
environment, when the loop of the spinner writes its clear after the header
line is printed, standard output holds the clear between the header line and
the message; and when the loop writes a frame before it is stopped, standard
output starts with the frame.  In both runs `RunCommit` has printed its last
line, and the text on standard output is not the header and the message
alone. -/
theorem RunCommit_stream_counterexample :
    (RunCommit envAnswering "").1 = none ∧
      commitRun envAnswering ""
          [Choice.main, Choice.main, Choice.loop 0, Choice.main, Choice.loop 0, Choice.main] =
        { main := [], sending := false, loops := [("llama3.1", LoopState.done)],
          out := [Out.caller "\nGenerated commit message:\n", Out.spinner 0 Write.clear,
                  Out.caller "git commit -m \"feat: x\"\n"] } ∧
      streamText (commitRun envAnswering ""
          [Choice.main, Choice.main, Choice.loop 0, Choice.main, Choice.loop 0,
            Choice.main]).out =
        "\nGenerated commit message:\n\r\x1b[Kgit commit -m \"feat: x\"\n" ∧
      streamText (commitRun envAnswering ""
          [Choice.main, Choice.main, Choice.loop 0, Choice.main, Choice.loop 0,
            Choice.main]).out ≠
        "\nGenerated commit message:\n" ++ "git commit -m \"feat: x\"" ++ "\n" ∧
      commitRun envAnswering ""
          [Choice.main, Choice.loop 0, Choice.main, Choice.loop 0, Choice.main, Choice.main] =
        { main := [], sending := false, loops := [("llama3.1", LoopState.clearing)],
          out := [Out.spinner 0 (Write.frame (frameText "⠋" "llama3.1")),
                  Out.caller "\nGenerated commit message:\n",
                  Out.caller "git commit -m \"feat: x\"\n"] } ∧
      streamText (commitRun envAnswering ""
          [Choice.main, Choice.loop 0, Choice.main, Choice.loop 0, Choice.main,
            Choice.main]).out ≠
        "\nGenerated commit message:\n" ++ "git commit -m \"feat: x\"" ++ "\n" := by
  decide

end Cmt
